import Mathlib

/-!
Verification of the face-recognition attendance core of the Presence
repository: the descriptor matcher (RecognitionService.ts), the
attendance reconciler (the useAttendanceCalendar hook and
fetchAttendanceRecords from attendanceUtils), the attendance write
paths (recordAttendance, storeUnrecognizedFace) and the descriptor
string codec (ModelService, modelled from the specification since its
source is not part of the provided tree).

Modelling conventions:
- JavaScript Date instants are Nat milliseconds since the epoch (UTC);
  setHours(0,0,0,0) becomes truncation to the containing day.
- Float descriptor components are rationals; Math.sqrt is mirrored by
  carrying squared distances (Math.sqrt is strictly increasing on
  nonnegative reals, so every comparison the source performs on
  distances is performed here on squared distances against the squared
  threshold 0.6^2 = 36/100); the real-valued distance and confidence are
  recovered with Real.sqrt in the statements.
- Thrown-and-caught JS errors become Option/Except values; a supabase
  query result is a record carrying an optional data list and an
  optional error, exactly as the source destructures it.
- String.toLowerCase on the ASCII status strings is embedded as a
  character map that lowers the 26 ASCII uppercase letters.
-/

/-! ## Calendar dates (JS Date instants as milliseconds) -/

/-- Milliseconds in one calendar day. -/
def msPerDay : ℕ := 86400000

/-- Calendar day index of an instant. -/
def dayOf (t : ℕ) : ℕ := t / msPerDay

/-- Midnight truncation of an instant: the JS idiom date.setHours(0,0,0,0). -/
def truncDate (t : ℕ) : ℕ := dayOf t * msPerDay

/-- Same calendar date test for two instants. -/
def sameCalendarDate (a b : ℕ) : Bool := dayOf a == dayOf b

/-- Modelled from the spec: isDateInArray (attendanceUtils, source not in
the provided tree) tests membership of a date in an array using
calendar-date equality, truncating time-of-day before comparing. -/
def isDateInArray (d : ℕ) (arr : List ℕ) : Bool :=
  arr.any (fun x => sameCalendarDate x d)

/-! ## ASCII lowercase (JS String.prototype.toLowerCase on status strings) -/

/-- Lowercase one ASCII character. -/
def lowerChar (c : Char) : Char :=
  match c with
  | 'A' => 'a' | 'B' => 'b' | 'C' => 'c' | 'D' => 'd' | 'E' => 'e' | 'F' => 'f'
  | 'G' => 'g' | 'H' => 'h' | 'I' => 'i' | 'J' => 'j' | 'K' => 'k' | 'L' => 'l'
  | 'M' => 'm' | 'N' => 'n' | 'O' => 'o' | 'P' => 'p' | 'Q' => 'q' | 'R' => 'r'
  | 'S' => 's' | 'T' => 't' | 'U' => 'u' | 'V' => 'v' | 'W' => 'w' | 'X' => 'x'
  | 'Y' => 'y' | 'Z' => 'z' | other => other

/-- JS status.toLowerCase() for the ASCII status strings of this app. -/
def toLowerStr (s : String) : String := String.mk (s.data.map lowerChar)

/-- Whether one character list occurs inside another at some offset. -/
def leadsList (needle hay : List Char) : Bool :=
  match needle, hay with
  | [], _ => true
  | x :: xs, y :: ys => x == y && leadsList xs ys
  | _ :: _, [] => false

/-- JS String.prototype.includes: the needle occurs contiguously in the
haystack. -/
def strIncludes (hay needle : String) : Bool :=
  (List.range (hay.data.length + 1)).any (fun i => leadsList needle.data (hay.data.drop i))

/-! ## Data model: attendance records and query results -/

/-- The metadata object nested in device_info (RecognitionService.ts,
interface DeviceInfo.metadata). -/
structure FaceMetadata where
  name : Option String
  employee_id : Option String
  department : Option String
  position : Option String
  firebase_image_url : Option String
  faceDescriptor : Option String
deriving DecidableEq

/-- The device_info JSON column (RecognitionService.ts, interface
DeviceInfo; the userAgent key written by storeUnrecognizedFace is
carried in the same optional-string style). -/
structure DeviceInfo where
  metadata : Option FaceMetadata
  infoType : Option String
  timestamp : Option ℕ
  registration : Option Bool
  firebase_image_url : Option String
  userAgent : Option String
  confidence : Option ℚ
deriving DecidableEq

/-- A row of the attendance_records table as the core reads it.
Timestamps are instants in milliseconds; user_id is nullable. -/
structure AttRecord where
  rid : String
  user_id : Option String
  ts : ℕ
  status : String
  device_info : Option DeviceInfo
deriving DecidableEq

/-- A supabase query result as destructured by the source:
an optional data list and an optional error. -/
structure QueryRes where
  data : Option (List AttRecord)
  error : Option String
deriving DecidableEq

/-! ## Attendance reconciler (useAttendanceCalendar in Logo.tsx and
fetchAttendanceRecords in attendanceUtils, src/unnamed/part_002) -/

/-- The per-identity calendar state held by the hook: attendanceDays
(present), lateAttendanceDays, absentDays, workingDays. -/
structure CalState where
  present : List ℕ
  late : List ℕ
  absent : List ℕ
  working : List ℕ
deriving DecidableEq

/-- The live path's present test (Logo.tsx line 92):
status === 'Present' or status.toLowerCase().includes('present'). -/
def livePresentCheck (s : String) : Bool :=
  s == "Present" || strIncludes (toLowerStr s) "present"

/-- The live path's late test (Logo.tsx line 94):
status === 'Late' or status.toLowerCase().includes('late'). -/
def liveLateCheck (s : String) : Bool :=
  s == "Late" || strIncludes (toLowerStr s) "late"

/-- The batch scan of Logo.tsx lines 78-98: truncate each record's
timestamp to midnight, skip a date already collected in either batch
array (instant equality of truncated dates, the getTime comparison),
then classify by livePresentCheck / liveLateCheck. -/
def buildDates : List AttRecord → List ℕ × List ℕ → List ℕ × List ℕ
  | [], acc => acc
  | r :: rs, (ps, ls) =>
    let d := truncDate r.ts
    if ps.contains d || ls.contains d then buildDates rs (ps, ls)
    else if livePresentCheck r.status then buildDates rs (ps ++ [d], ls)
    else if liveLateCheck r.status then buildDates rs (ps, ls ++ [d])
    else buildDates rs (ps, ls)

/-- Merge new dates into a previous array, skipping dates already
present by calendar-date equality; Logo.tsx lines 102-110 and 114-122
push onto a copy of the previous array. -/
def mergeDates (prev new : List ℕ) : List ℕ :=
  new.foldl (fun comb d => if isDateInArray d comb then comb else comb ++ [d]) prev

/-- The record filter of the live effect (Logo.tsx lines 72-74):
user_id === selectedFaceId or id === selectedFaceId. -/
def liveFaceFilter (faceId : String) (r : AttRecord) : Bool :=
  r.user_id == some faceId || r.rid == faceId

/-- The live-merge effect of Logo.tsx lines 69-123: filter the recent
records for the selected face, build the batch date arrays, and union
any nonempty batch into the previous state (the dailyAttendance update
of lines 126-144 is outside CalState). -/
def liveApply (recent : List AttRecord) (faceId : String) (s : CalState) : CalState :=
  let faceRecords := recent.filter (liveFaceFilter faceId)
  if faceRecords.isEmpty then s
  else
    let pls := buildDates faceRecords ([], [])
    let s1 := if pls.1.isEmpty then s else { s with present := mergeDates s.present pls.1 }
    if pls.2.isEmpty then s1 else { s1 with late := mergeDates s1.late pls.2 }

/-- Status normalization of fetchAttendanceRecords (part_002 lines
56-59): lowercase the status of every combined record. -/
def normalizeRecord (r : AttRecord) : AttRecord :=
  { r with status := toLowerStr r.status }

/-- The present filter of fetchAttendanceRecords (part_002 lines 62-65):
normalized status equals 'present', or 'unauthorized' which is included
as present for backward compatibility. -/
def histPresentPred (r : AttRecord) : Bool :=
  r.status == "present" || r.status == "unauthorized"

/-- The late filter of fetchAttendanceRecords (part_002 lines 68-70). -/
def histLatePred (r : AttRecord) : Bool := r.status == "late"

/-- The combined record list of fetchAttendanceRecords (part_002 line
44): data of the query by id concatenated with data of the query by
user_id, a null data treated as the empty list; the error fields of the
two query results are never consulted. -/
def histAllRecords (qById qByUserId : QueryRes) : List AttRecord :=
  qById.data.getD [] ++ qByUserId.data.getD []

/-- The historical fetch applied to calendar state (part_002 lines
44-96): an empty combined list clears both day arrays; otherwise the
normalized present and late records replace them wholesale (the setters
receive fresh arrays, not merges with the previous state). -/
def histApply (qById qByUserId : QueryRes) (s : CalState) : CalState :=
  let allRecords := histAllRecords qById qByUserId
  if allRecords.isEmpty then { s with present := [], late := [] }
  else
    let norm := allRecords.map normalizeRecord
    let presentRecords := norm.filter histPresentPred
    let lateRecords := norm.filter histLatePred
    let s1 := { s with present := if presentRecords.isEmpty then [] else presentRecords.map AttRecord.ts }
    if lateRecords.isEmpty then { s1 with late := [] } else { s1 with late := lateRecords.map AttRecord.ts }

/-- The filter body of the absent-days effect (Logo.tsx lines 207-212):
keep a working day only if it is not after today and belongs to neither
attendance array. -/
def absentFilter (today : ℕ) (present late : List ℕ) (w : ℕ) : Bool :=
  !(decide (today < w)) && !(isDateInArray w present) && !(isDateInArray w late)

/-- The absent-days effect of Logo.tsx lines 204-216: only when
workingDays is nonempty and at least one of the two attendance arrays
is nonempty, absentDays is replaced by the working days not after today
and in neither attendance array; otherwise absentDays is left as it
was. -/
def recomputeAbsent (today : ℕ) (s : CalState) : CalState :=
  if s.working ≠ [] ∧ (s.present ≠ [] ∨ s.late ≠ []) then
    { s with absent := s.working.filter (absentFilter today s.present s.late) }
  else s

/-- A successful query by record id over an underlying record set. -/
def okQueryById (R : List AttRecord) (faceId : String) : QueryRes :=
  ⟨some (R.filter (fun r => r.rid == faceId)), none⟩

/-- A successful query by user_id over an underlying record set. -/
def okQueryByUserId (R : List AttRecord) (faceId : String) : QueryRes :=
  ⟨some (R.filter (fun r => r.user_id == some faceId)), none⟩

/-- One resolved historical fetch against the underlying record set,
followed by the dependent recomputation of absent days. -/
def histStep (R : List AttRecord) (faceId : String) (today : ℕ) (s : CalState) : CalState :=
  recomputeAbsent today (histApply (okQueryById R faceId) (okQueryByUserId R faceId) s)

/-- One delivery of live events, followed by the dependent
recomputation of absent days. -/
def liveStep (evs : List AttRecord) (faceId : String) (today : ℕ) (s : CalState) : CalState :=
  recomputeAbsent today (liveApply evs faceId s)

/-! ## Working days and reachable calendar states -/

/-- Gregorian leap year test. -/
def leapYear (y : ℕ) : Bool := (y % 4 == 0 && y % 100 != 0) || y % 400 == 0

/-- Days in a year. -/
def daysInYear (y : ℕ) : ℕ := if leapYear y then 366 else 365

/-- Days in a month, month zero-based as with JS Date.getMonth. -/
def daysInMonth (y m : ℕ) : ℕ :=
  match m with
  | 0 => 31 | 1 => if leapYear y then 29 else 28 | 2 => 31 | 3 => 30
  | 4 => 31 | 5 => 30 | 6 => 31 | 7 => 31 | 8 => 30 | 9 => 31 | 10 => 30 | _ => 31

/-- Epoch day count of the first day of a year (years from 1970 on). -/
def daysBeforeYear (y : ℕ) : ℕ :=
  ((List.range (y - 1970)).map (fun i => daysInYear (1970 + i))).sum

/-- Epoch day count of the first day of a month within a year. -/
def daysBeforeMonth (y m : ℕ) : ℕ :=
  ((List.range m).map (fun k => daysInMonth y k)).sum

/-- Epoch day index of a calendar date (day one-based). -/
def epochDayIndex (y m d : ℕ) : ℕ := daysBeforeYear y + daysBeforeMonth y m + (d - 1)

/-- Day of week of an epoch day index; day zero (1970-01-01) was a
Thursday, and JS getDay uses 0 for Sunday and 6 for Saturday. -/
def dayOfWeek (idx : ℕ) : ℕ := (idx + 4) % 7

/-- Modelled from the spec: generateWorkingDays (attendanceUtils, source
not in the provided tree) maps a year and zero-based month to the dates
of that month excluding the fixed non-working weekend pattern; pure and
deterministic. Produces midnight instants. -/
def generateWorkingDays (y m : ℕ) : List ℕ :=
  (((List.range (daysInMonth y m)).map (fun i => epochDayIndex y m (i + 1))).filter
    (fun idx => dayOfWeek idx != 0 && dayOfWeek idx != 6)).map (fun idx => idx * msPerDay)

/-- The state of the hook right after an identity is selected
(Logo.tsx lines 49-66 and 153-158): empty day arrays and the generated
working days of the current month. -/
def initState (y m : ℕ) : CalState :=
  ⟨[], [], [], generateWorkingDays y m⟩

/-- Reachable calendar states of the hook for a fixed current instant:
the initial state after selection, a historical fetch resolving with
arbitrary query results, a delivery of live events, and the reset on
clearing the selection; each data arrival is followed by the dependent
absent-days effect. -/
inductive reachCal (today : ℕ) : CalState → Prop
  | init (y m : ℕ) : reachCal today (initState y m)
  | hist (q1 q2 : QueryRes) (s : CalState) (h : reachCal today s) :
      reachCal today (recomputeAbsent today (histApply q1 q2 s))
  | live (evs : List AttRecord) (faceId : String) (s : CalState) (h : reachCal today s) :
      reachCal today (recomputeAbsent today (liveApply evs faceId s))
  | clearSel (s : CalState) (h : reachCal today s) :
      reachCal today { s with present := [], late := [], absent := [] }

/-! ## Descriptor string codec (ModelService, modelled from the spec)

The spec requires encode and decode over a string form to be exact
inverses for any finite-length float vector within a fixed, documented
precision; the model fixes six decimal digits per component, rendering
each component as the signed decimal integer nearest to one million
times the component, separated by commas. -/

/-- The fixed precision denominator: six decimal digits. -/
def codecScale : ℕ := 1000000

/-- Decimal digit to character. -/
def charOfDigit (d : ℕ) : Char :=
  match d with
  | 0 => '0' | 1 => '1' | 2 => '2' | 3 => '3' | 4 => '4'
  | 5 => '5' | 6 => '6' | 7 => '7' | 8 => '8' | _ => '9'

/-- Character to decimal digit, refusing non-digits: the digit whose
rendering equals the character, if one exists. -/
def digitOfChar (c : Char) : Option ℕ :=
  (List.range 10).findSome? (fun d => if charOfDigit d == c then some d else none)

/-- Little-endian decimal digits of a natural number, with enough fuel
to terminate structurally. -/
def natDigitsRevFuel : ℕ → ℕ → List Char
  | 0, _ => []
  | fuel + 1, n =>
    if n < 10 then [charOfDigit n]
    else charOfDigit (n % 10) :: natDigitsRevFuel fuel (n / 10)

/-- Big-endian decimal rendering of a natural number. -/
def natChars (n : ℕ) : List Char := (natDigitsRevFuel (n + 1) n).reverse

/-- Signed decimal rendering of an integer. -/
def intChars (z : ℤ) : List Char :=
  if z < 0 then '-' :: natChars z.natAbs else natChars z.toNat

/-- Big-endian decimal parse with accumulator. -/
def parseNatGo (acc : ℕ) : List Char → Option ℕ
  | [] => some acc
  | c :: rest =>
    match digitOfChar c with
    | none => none
    | some d => parseNatGo (acc * 10 + d) rest

/-- Parse a nonempty decimal digit string. -/
def parseNatChars (cs : List Char) : Option ℕ :=
  if cs.isEmpty then none else parseNatGo 0 cs

/-- Parse a signed decimal integer string. -/
def parseIntChars (cs : List Char) : Option ℤ :=
  match cs with
  | [] => none
  | c :: rest =>
    if c == '-' then (parseNatChars rest).map (fun n => -(n : ℤ))
    else (parseNatChars cs).map (fun n => (n : ℤ))

/-- Join character tokens with comma separators. -/
def joinChars : List (List Char) → List Char
  | [] => []
  | [t] => t
  | t :: ts => t ++ ',' :: joinChars ts

/-- Split a character list at comma separators. -/
def splitChars : List Char → List (List Char)
  | [] => [[]]
  | c :: rest =>
    let r := splitChars rest
    if c == ',' then [] :: r
    else
      match r with
      | [] => [[c]]
      | t :: ts => (c :: t) :: ts

/-- Option-valued map over a list that fails when any element fails. -/
def optMapM (g : α → Option β) : List α → Option (List β)
  | [] => some []
  | x :: xs => (g x).bind (fun b => (optMapM g xs).map (fun bs => b :: bs))

/-- The rendered token of one descriptor component: the nearest integer
to the component scaled by one million. -/
def componentChars (q : ℚ) : List Char := intChars (round (q * (codecScale : ℚ)))

/-- Modelled from the spec: descriptorToString (ModelService, source not
in the provided tree) renders a float descriptor as a comma-separated
decimal string at the fixed six-digit precision. -/
def descriptorToString (d : List ℚ) : String :=
  String.mk (joinChars (d.map componentChars))

/-- Parse one token back to a rational component. -/
def parseComponent (cs : List Char) : Option ℚ :=
  (parseIntChars cs).map (fun z => (z : ℚ) / (codecScale : ℚ))

/-- Modelled from the spec: stringToDescriptor (ModelService, source not
in the provided tree) parses a comma-separated decimal string back into
a descriptor, failing on any malformed token. -/
def stringToDescriptor (s : String) : Option (List ℚ) :=
  match s.data with
  | [] => some []
  | cs => optMapM parseComponent (splitChars cs)

/-- The quantization a component undergoes in one encode/decode round
trip: rounding to the fixed six-digit precision. -/
def quantize (q : ℚ) : ℚ := ((round (q * (codecScale : ℚ)) : ℤ) : ℚ) / (codecScale : ℚ)

/-! ## Descriptor matcher (recognizeFace and calculateDistance in
RecognitionService.ts) -/

/-- Squared Euclidean distance of two equal-length descriptors: the sum
of squared componentwise differences computed by the loop of
calculateDistance (lines 132-137); the source takes Math.sqrt of this
sum, which the model carries squared. -/
def distSq (d1 d2 : List ℚ) : ℚ :=
  ((d1.zip d2).map (fun p => (p.1 - p.2) * (p.1 - p.2))).sum

/-- calculateDistance (lines 127-139): refuse descriptors of different
dimensions (the source throws, which every caller catches per record),
otherwise produce the squared distance. -/
def calculateDistanceSq (d1 d2 : List ℚ) : Option ℚ :=
  if d1.length = d2.length then some (distSq d1 d2) else none

/-- The per-record comparison of the loop body (lines 65-89): the
record contributes a distance only if device_info, its metadata, its
faceDescriptor string, and the decode of that string all exist and the
dimensions agree; any failure is the caught-and-skipped path. -/
def candDistSq (probe : List ℚ) (r : AttRecord) : Option ℚ :=
  match r.device_info with
  | none => none
  | some di =>
    match di.metadata with
    | none => none
    | some md =>
      match md.faceDescriptor with
      | none => none
      | some s =>
        match stringToDescriptor s with
        | none => none
        | some desc => calculateDistanceSq probe desc

/-- The squared acceptance threshold: the source initializes
bestDistance to 0.6 and compares with strict less-than; 0.6 squared is
36/100. -/
def thresholdSq : ℚ := 36 / 100

/-- The comparison loop of recognizeFace (lines 61-89): track the best
record and best (squared) distance, updating only on strict
improvement. -/
def matchLoop (probe : List ℚ) : List AttRecord → Option AttRecord → ℚ → Option AttRecord × ℚ
  | [], best, bestD => (best, bestD)
  | r :: rs, best, bestD =>
    match candDistSq probe r with
    | none => matchLoop probe rs best bestD
    | some d => if d < bestD then matchLoop probe rs (some r) d else matchLoop probe rs best bestD

/-- The Employee projection of RecognitionService.ts. -/
structure Employee where
  id : String
  name : String
  employee_id : String
  department : String
  position : String
  firebase_image_url : String
deriving DecidableEq

/-- The RecognitionResult of RecognitionService.ts; the source stores
confidence = 1 - bestDistance, the model stores the squared best
distance and recovers confidence through Real.sqrt. -/
structure RecognitionResult where
  recognized : Bool
  employee : Option Employee
  bestDistanceSq : Option ℚ
deriving DecidableEq

/-- JS truthy-or-default on an optional string: null, undefined and the
empty string all fall through to the default. -/
def jsOr (o : Option String) (dflt : String) : String :=
  match o with
  | some s => if s == "" then dflt else s
  | none => dflt

/-- The employee built from the best match (lines 102-109). -/
def employeeOfRec (r : AttRecord) : Employee :=
  let md := r.device_info.bind DeviceInfo.metadata
  { id := jsOr r.user_id "unknown"
    name := jsOr (md.bind FaceMetadata.name) "Unknown"
    employee_id := jsOr (md.bind FaceMetadata.employee_id) "Unknown"
    department := jsOr (md.bind FaceMetadata.department) "Unknown"
    position := jsOr (md.bind FaceMetadata.position) "Unknown"
    firebase_image_url := jsOr (md.bind FaceMetadata.firebase_image_url) "" }

/-- The result returned on every no-match path. -/
def noMatchResult : RecognitionResult := ⟨false, none, none⟩

/-- The pure matching pass of recognizeFace over an already-fetched
candidate list (lines 54-119): empty data is a plain no-match; after
the loop, a surviving best match is accepted, unless its metadata is
missing (lines 97-100), in which case the source answers
recognized = false. -/
def matchCandidates (probe : List ℚ) (records : List AttRecord) : RecognitionResult :=
  if records.isEmpty then noMatchResult
  else
    let res := matchLoop probe records none thresholdSq
    match res.1 with
    | none => noMatchResult
    | some r =>
      match r.device_info.bind DeviceInfo.metadata with
      | none => noMatchResult
      | some _ => ⟨true, some (employeeOfRec r), some res.2⟩

/-- recognizeFace (lines 36-124) including the query boundary: a query
error is thrown to the caller; null or empty data is a no-match; the
rest is the pure matching pass. -/
def recognizeFace (probe : List ℚ) (q : QueryRes) : Except String RecognitionResult :=
  match q.error with
  | some e => Except.error e
  | none => Except.ok (matchCandidates probe (q.data.getD []))

/-- The distances of the comparable candidates, in iteration order. -/
def candDists (probe : List ℚ) (records : List AttRecord) : List ℚ :=
  records.filterMap (candDistSq probe)

/-- The minimum squared distance over the comparable candidates, when
any candidate is comparable. -/
def minDistSq (probe : List ℚ) (records : List AttRecord) : Option ℚ :=
  match candDists probe records with
  | [] => none
  | x :: xs => some (xs.foldl min x)

/-- The confidence the source reports: 1 - bestDistance, recovered from
the squared best distance. -/
noncomputable def RecognitionResult.confidence (r : RecognitionResult) : Option ℝ :=
  r.bestDistanceSq.map (fun q => 1 - Real.sqrt (q : ℝ))

/-- The minimum Euclidean distance over the comparable candidates. -/
noncomputable def minEuclideanDistance (probe : List ℚ) (records : List AttRecord) : Option ℝ :=
  (minDistSq probe records).map (fun q => Real.sqrt (q : ℝ))

/-- The records of the underlying set matched for an identity by the
pair of historical queries: those whose record id equals the face id
followed by those whose user_id equals the face id. -/
def matchedRecords (R : List AttRecord) (faceId : String) : List AttRecord :=
  R.filter (fun r => r.rid == faceId) ++ R.filter (fun r => r.user_id == some faceId)

/-- The present-day instants a successful historical fetch produces. -/
def histPresentDays (R : List AttRecord) (faceId : String) : List ℕ :=
  (((matchedRecords R faceId).map normalizeRecord).filter histPresentPred).map AttRecord.ts

/-- The late-day instants a successful historical fetch produces. -/
def histLateDays (R : List AttRecord) (faceId : String) : List ℕ :=
  (((matchedRecords R faceId).map normalizeRecord).filter histLatePred).map AttRecord.ts

/-- The status invariant of the data model: a stored status is one of
registered, present, late, unauthorized in some letter case. -/
def canonicalStatus (s : String) : Prop :=
  toLowerStr s = "registered" ∨ toLowerStr s = "present" ∨
    toLowerStr s = "late" ∨ toLowerStr s = "unauthorized"

instance canonicalStatusDecidable (s : String) : Decidable (canonicalStatus s) := by
  unfold canonicalStatus
  infer_instance

/-- The amended calendar-state invariant: absent days are working days
not after today and disjoint (by calendar date) from the present and
late arrays; and whenever the recompute guard holds (nonempty working
days and a nonempty present or late array), every working day not after
today is classified present, late or absent. -/
def calInvariant (today : ℕ) (s : CalState) : Prop :=
  (∀ a ∈ s.absent, a ∈ s.working ∧ a ≤ today ∧
    isDateInArray a s.present = false ∧ isDateInArray a s.late = false) ∧
  ((s.working ≠ [] ∧ (s.present ≠ [] ∨ s.late ≠ [])) →
    ∀ w ∈ s.working, w ≤ today →
      (isDateInArray w s.present = true ∨ isDateInArray w s.late = true ∨ w ∈ s.absent))

/-! ## Attendance write paths (recordAttendance in RecognitionService.ts
and storeUnrecognizedFace in FaceRegistration, src/unnamed/part_004) -/

/-- The row shape inserted into attendance_records. -/
structure InsertPayload where
  user_id : Option String
  timestamp : Option ℕ
  status : String
  device_info : Option DeviceInfo
  confidence_score : Option ℚ
  image_url : Option String
deriving DecidableEq

/-- The status normalization of recordAttendance (lines 150-155):
an unauthorized status is stored as present for universal
compatibility; every other status is stored unchanged. -/
def normalizeRecordAttendanceStatus (status : String) : String :=
  if status == "unauthorized" then "present" else status

/-- The device info recordAttendance builds (lines 176-186): webcam
type, timestamp and confidence defaults overridden by the caller's
device info spread, and metadata whose name falls back from the
profiles username through the given metadata name to Unknown. -/
def fullDeviceInfo (userName : Option String) (confidence : Option ℚ)
    (deviceInfo : Option DeviceInfo) (ts : ℕ) : DeviceInfo :=
  let md := deviceInfo.bind DeviceInfo.metadata
  { metadata := some
      { name := some (jsOr userName (jsOr (md.bind FaceMetadata.name) "Unknown"))
        employee_id := md.bind FaceMetadata.employee_id
        department := md.bind FaceMetadata.department
        position := md.bind FaceMetadata.position
        firebase_image_url := md.bind FaceMetadata.firebase_image_url
        faceDescriptor := md.bind FaceMetadata.faceDescriptor }
    infoType := some (match deviceInfo.bind DeviceInfo.infoType with
      | some t => t
      | none => "webcam")
    timestamp := some (match deviceInfo.bind DeviceInfo.timestamp with
      | some t => t
      | none => ts)
    registration := deviceInfo.bind DeviceInfo.registration
    firebase_image_url := deviceInfo.bind DeviceInfo.firebase_image_url
    userAgent := deviceInfo.bind DeviceInfo.userAgent
    confidence := match deviceInfo.bind DeviceInfo.confidence with
      | some c => some c
      | none => confidence }

/-- The row recordAttendance inserts (lines 190-198): the caller's user
id, the normalized status, the merged device info and the confidence
score. -/
def recordAttendancePayload (userId : String) (status : String) (confidence : Option ℚ)
    (deviceInfo : Option DeviceInfo) (userName : Option String) (ts : ℕ) : InsertPayload :=
  { user_id := some userId
    timestamp := some ts
    status := normalizeRecordAttendanceStatus status
    device_info := some (fullDeviceInfo userName confidence deviceInfo ts)
    confidence_score := confidence
    image_url := none }

/-- The row storeUnrecognizedFace inserts (part_004 lines 186-193):
a null user id, the literal status unauthorized, webcam device info
carrying the image reference, and no confidence. -/
def storeUnrecognizedFacePayload (imageUrl : String) (userAgent : String)
    (ts : ℕ) : InsertPayload :=
  { user_id := none
    timestamp := none
    status := "unauthorized"
    device_info := some
      { metadata := none
        infoType := some "webcam"
        timestamp := some ts
        registration := none
        firebase_image_url := some imageUrl
        userAgent := some userAgent
        confidence := none }
    confidence_score := none
    image_url := some imageUrl }

/-! ## Concrete sample data for witnesses and counterexamples -/

/-- A registered record whose stored descriptor encodes the vector
(1/2) and whose metadata names Alice. -/
def sampleRec1 : AttRecord :=
  { rid := "rec1"
    user_id := some "user1"
    ts := 1741000000000
    status := "registered"
    device_info := some
      { metadata := some
          { name := some "Alice"
            employee_id := some "E1"
            department := some "Eng"
            position := some "Dev"
            firebase_image_url := some "img1"
            faceDescriptor := some (descriptorToString [1 / 2]) }
        infoType := some "webcam"
        timestamp := none
        registration := some true
        firebase_image_url := none
        userAgent := none
        confidence := none } }

/-- A registered record whose stored descriptor encodes the vector
(-1/2), at the same distance from the zero probe as sampleRec1. -/
def sampleRec2 : AttRecord :=
  { rid := "rec2"
    user_id := some "user2"
    ts := 1741000000001
    status := "registered"
    device_info := some
      { metadata := some
          { name := some "Bob"
            employee_id := some "E2"
            department := some "Eng"
            position := some "Dev"
            firebase_image_url := some "img2"
            faceDescriptor := some (descriptorToString [-1 / 2]) }
        infoType := some "webcam"
        timestamp := none
        registration := some true
        firebase_image_url := none
        userAgent := none
        confidence := none } }

/-- A record whose stored descriptor string is not decodable. -/
def sampleRecBad : AttRecord :=
  { rid := "recBad"
    user_id := some "user3"
    ts := 1741000000002
    status := "registered"
    device_info := some
      { metadata := some
          { name := some "Carol"
            employee_id := none
            department := none
            position := none
            firebase_image_url := none
            faceDescriptor := some "x" }
        infoType := some "webcam"
        timestamp := none
        registration := none
        firebase_image_url := none
        userAgent := none
        confidence := none } }

/-- A record whose stored descriptor has dimension two, incomparable
with a one-dimensional probe. -/
def sampleRecDim : AttRecord :=
  { rid := "recDim"
    user_id := some "user4"
    ts := 1741000000003
    status := "registered"
    device_info := some
      { metadata := some
          { name := some "Dan"
            employee_id := none
            department := none
            position := none
            firebase_image_url := none
            faceDescriptor := some (descriptorToString [1 / 2, 1 / 2]) }
        infoType := some "webcam"
        timestamp := none
        registration := none
        firebase_image_url := none
        userAgent := none
        confidence := none } }

/-- Records of one identity used by the merge-order witness: a Present
morning record and a late noon record of the same face on March 3 and
March 4, 2025. -/
def c1RecA : AttRecord := ⟨"a1", some "f1", 1740963600000, "Present", none⟩

/-- Second record of the merge-order witness. -/
def c1RecB : AttRecord := ⟨"a2", some "f1", 1740967200000, "late", none⟩

/-- The record set of the merge-order witness. -/
def c1R : List AttRecord := [c1RecA, c1RecB]

/-- An unauthorized record with no identity whose record id collides
with a selected face id. -/
def c4Rec : AttRecord := ⟨"f1", none, 1740963600000, "Unauthorized", none⟩

/-- The premise of C10 as stated: some probe and candidate set whose
closest stored record is strictly below the 0.6 threshold while its
device_info carries no metadata object, with the match nevertheless
answering recognized false. -/
def matchC10Premise : Prop :=
  ∃ (probe : List ℚ) (records : List AttRecord) (r : AttRecord) (m : ℚ),
    r ∈ records ∧ candDistSq probe r = some m ∧ minDistSq probe records = some m ∧
    m < thresholdSq ∧ r.device_info.bind DeviceInfo.metadata = none ∧
    (matchCandidates probe records).recognized = false

theorem dayOf_truncDate (t : ℕ) : dayOf (truncDate t) = dayOf t := by
  unfold truncDate dayOf
  exact Nat.mul_div_cancel (t / msPerDay) (by norm_num [msPerDay])

/-! ## Codec round-trip lemmas -/

theorem digitOfChar_charOfDigit : ∀ d < 10, digitOfChar (charOfDigit d) = some d := by decide

theorem charOfDigit_ne_comma : ∀ d < 10, (charOfDigit d == ',') = false := by decide

theorem charOfDigit_ne_minus : ∀ d < 10, (charOfDigit d == '-') = false := by decide

theorem mem_natDigitsRevFuel {fuel n : ℕ} {c : Char} (h : c ∈ natDigitsRevFuel fuel n) :
    ∃ d, d < 10 ∧ c = charOfDigit d := by
  induction fuel generalizing n with
  | zero => simp [natDigitsRevFuel] at h
  | succ fuel ih =>
    rw [natDigitsRevFuel] at h
    by_cases hn : n < 10
    · simp [hn] at h
      exact ⟨n, hn, h⟩
    · simp [hn] at h
      rcases h with h | h
      · exact ⟨n % 10, Nat.mod_lt n (by omega), h⟩
      · exact ih h

theorem natDigitsRevFuel_ne_nil (fuel n : ℕ) : natDigitsRevFuel (fuel + 1) n ≠ [] := by
  rw [natDigitsRevFuel]
  by_cases hn : n < 10 <;> simp [hn]

theorem parseNatGo_append (acc : ℕ) (xs ys : List Char) :
    parseNatGo acc (xs ++ ys) =
      match parseNatGo acc xs with
      | none => none
      | some v => parseNatGo v ys := by
  induction xs generalizing acc with
  | nil => simp [parseNatGo]
  | cons c rest ih =>
    rw [List.cons_append, parseNatGo, parseNatGo]
    cases digitOfChar c with
    | none => rfl
    | some d => exact ih (acc * 10 + d)

theorem parseNatGo_digits (fuel : ℕ) : ∀ n acc, n < fuel →
    parseNatGo acc (natDigitsRevFuel fuel n).reverse =
      some (acc * 10 ^ (natDigitsRevFuel fuel n).length + n) := by
  induction fuel with
  | zero => intro n acc h; omega
  | succ fuel ih =>
    intro n acc h
    rw [natDigitsRevFuel]
    by_cases hn : n < 10
    · simp only [if_pos hn, List.reverse_singleton, List.length_singleton, pow_one]
      simp [parseNatGo, digitOfChar_charOfDigit n hn]
    · have hk : n / 10 < fuel := by
        have h1 : n / 10 < n := Nat.div_lt_self (by omega) (by omega)
        omega
      simp only [if_neg hn, List.reverse_cons, List.length_cons]
      rw [parseNatGo_append, ih (n / 10) acc hk]
      simp only [parseNatGo, digitOfChar_charOfDigit (n % 10) (Nat.mod_lt n (by omega))]
      congr 1
      have hdm : 10 * (n / 10) + n % 10 = n := Nat.div_add_mod n 10
      calc (acc * 10 ^ (natDigitsRevFuel fuel (n / 10)).length + n / 10) * 10 + n % 10
          = acc * (10 ^ (natDigitsRevFuel fuel (n / 10)).length * 10) + (10 * (n / 10) + n % 10) := by ring
        _ = acc * 10 ^ ((natDigitsRevFuel fuel (n / 10)).length + 1) + n := by rw [hdm, pow_succ]

theorem parseNatChars_natChars (n : ℕ) : parseNatChars (natChars n) = some n := by
  unfold parseNatChars natChars
  have hne := natDigitsRevFuel_ne_nil n n
  have hrev : (natDigitsRevFuel (n + 1) n).reverse.isEmpty = false := by
    cases hd : natDigitsRevFuel (n + 1) n with
    | nil => exact absurd hd hne
    | cons a as => simp [hd, List.isEmpty_iff]
  rw [hrev]
  simp only [Bool.false_eq_true, if_false]
  rw [parseNatGo_digits (n + 1) n 0 (by omega)]
  simp

theorem mem_natChars {n : ℕ} {c : Char} (h : c ∈ natChars n) : ∃ d, d < 10 ∧ c = charOfDigit d :=
  mem_natDigitsRevFuel (List.mem_reverse.mp h)

theorem natChars_ne_nil (n : ℕ) : natChars n ≠ [] := by
  unfold natChars
  intro hcon
  exact natDigitsRevFuel_ne_nil n n (List.reverse_eq_nil_iff.mp hcon)

theorem parseIntChars_intChars (z : ℤ) : parseIntChars (intChars z) = some z := by
  unfold intChars
  by_cases hz : z < 0
  · simp only [if_pos hz]
    simp only [parseIntChars, beq_self_eq_true, if_true]
    rw [parseNatChars_natChars]
    have habs : -((z.natAbs : ℕ) : ℤ) = z := by omega
    simp only [Option.map]
    exact congrArg some habs
  · simp only [if_neg hz]
    cases hd : natChars z.toNat with
    | nil => exact absurd hd (natChars_ne_nil z.toNat)
    | cons c rest =>
      have hc : (c == '-') = false := by
        obtain ⟨d, hd10, hcd⟩ := mem_natChars (hd ▸ List.mem_cons_self c rest)
        rw [hcd]
        exact charOfDigit_ne_minus d hd10
      simp only [parseIntChars, hc]
      simp only [Bool.false_eq_true, if_false]
      rw [← hd, parseNatChars_natChars]
      have htn : ((z.toNat : ℕ) : ℤ) = z := by omega
      simp only [Option.map]
      exact congrArg some htn

theorem splitChars_ne_nil (cs : List Char) : splitChars cs ≠ [] := by
  induction cs with
  | nil => simp [splitChars]
  | cons c rest ih =>
    rw [splitChars]
    by_cases hc : (c == ',') = true
    · simp [hc]
    · simp only [hc]
      cases hr : splitChars rest with
      | nil => exact absurd hr ih
      | cons t ts => simp

theorem splitChars_no_comma {t : List Char} (h : ∀ c ∈ t, (c == ',') = false) :
    splitChars t = [t] := by
  induction t with
  | nil => rfl
  | cons c rest ih =>
    have hc : (c == ',') = false := h c (List.mem_cons_self c rest)
    have hrest : splitChars rest = [rest] := ih (fun x hx => h x (List.mem_cons_of_mem c hx))
    rw [splitChars]
    simp only [hc, hrest]
    rfl

theorem splitChars_append {t : List Char} (rest : List Char)
    (h : ∀ c ∈ t, (c == ',') = false) :
    splitChars (t ++ ',' :: rest) = t :: splitChars rest := by
  induction t with
  | nil =>
    rw [List.nil_append, splitChars]
    simp
  | cons c t' ih =>
    have hc : (c == ',') = false := h c (List.mem_cons_self c t')
    have ht' := ih (fun x hx => h x (List.mem_cons_of_mem c hx))
    rw [List.cons_append, splitChars]
    simp only [hc, ht']
    rfl

theorem splitChars_joinChars {tokens : List (List Char)} (hne : tokens ≠ [])
    (h : ∀ t ∈ tokens, ∀ c ∈ t, (c == ',') = false) :
    splitChars (joinChars tokens) = tokens := by
  induction tokens with
  | nil => exact absurd rfl hne
  | cons t ts ih =>
    cases ts with
    | nil =>
      rw [joinChars]
      exact splitChars_no_comma (h t (List.mem_cons_self t []))
    | cons t2 ts2 =>
      rw [show joinChars (t :: t2 :: ts2) = t ++ ',' :: joinChars (t2 :: ts2) from rfl]
      rw [splitChars_append (joinChars (t2 :: ts2)) (h t (List.mem_cons_self t (t2 :: ts2)))]
      rw [ih (by simp) (fun x hx c hc => h x (List.mem_cons_of_mem t hx) c hc)]

theorem intChars_no_comma (z : ℤ) : ∀ c ∈ intChars z, (c == ',') = false := by
  intro c hc
  unfold intChars at hc
  by_cases hz : z < 0
  · simp only [if_pos hz] at hc
    rcases List.mem_cons.mp hc with h | h
    · rw [h]; decide
    · obtain ⟨d, hd10, hcd⟩ := mem_natChars h
      rw [hcd]; exact charOfDigit_ne_comma d hd10
  · simp only [if_neg hz] at hc
    obtain ⟨d, hd10, hcd⟩ := mem_natChars hc
    rw [hcd]; exact charOfDigit_ne_comma d hd10

theorem intChars_ne_nil (z : ℤ) : intChars z ≠ [] := by
  unfold intChars
  by_cases hz : z < 0
  · simp [hz]
  · simp only [if_neg hz]
    exact natChars_ne_nil z.toNat

theorem optMapM_map (f : β → Option γ) (g : α → β) (l : List α) :
    optMapM f (l.map g) = optMapM (fun a => f (g a)) l := by
  induction l with
  | nil => rfl
  | cons a as ih => simp only [List.map_cons, optMapM, ih]

theorem optMapM_all_some (f : α → Option β) (g : α → β) (l : List α)
    (h : ∀ a ∈ l, f a = some (g a)) : optMapM f l = some (l.map g) := by
  induction l with
  | nil => rfl
  | cons a as ih =>
    rw [optMapM, h a (List.mem_cons_self a as), ih (fun x hx => h x (List.mem_cons_of_mem a hx))]
    rfl

theorem parseComponent_componentChars (q : ℚ) :
    parseComponent (componentChars q) = some (quantize q) := by
  unfold parseComponent componentChars quantize
  rw [parseIntChars_intChars]
  rfl

theorem joinChars_ne_nil {t : List Char} (ts : List (List Char)) (ht : t ≠ []) :
    joinChars (t :: ts) ≠ [] := by
  cases ts with
  | nil => rw [joinChars]; exact ht
  | cons t2 ts2 =>
    rw [show joinChars (t :: t2 :: ts2) = t ++ ',' :: joinChars (t2 :: ts2) from rfl]
    simp

theorem stringToDescriptor_mk_of_ne_nil (l : List Char) (h : l ≠ []) :
    stringToDescriptor (String.mk l) = optMapM parseComponent (splitChars l) := by
  unfold stringToDescriptor
  cases l with
  | nil => exact absurd rfl h
  | cons c cs => rfl

theorem stringToDescriptor_descriptorToString (d : List ℚ) :
    stringToDescriptor (descriptorToString d) = some (d.map quantize) := by
  cases d with
  | nil => rfl
  | cons x xs =>
    have hne : joinChars ((x :: xs).map componentChars) ≠ [] := by
      have hm : (x :: xs).map componentChars = componentChars x :: xs.map componentChars := rfl
      rw [hm]
      exact joinChars_ne_nil (xs.map componentChars) (intChars_ne_nil (round (x * (codecScale : ℚ))))
    have hsplit : splitChars (joinChars ((x :: xs).map componentChars))
        = (x :: xs).map componentChars := by
      apply splitChars_joinChars (by simp)
      intro t ht c' hc'
      obtain ⟨q, _, hq⟩ := List.mem_map.mp ht
      rw [← hq] at hc'
      exact intChars_no_comma (round (q * (codecScale : ℚ))) c' hc'
    unfold descriptorToString
    rw [stringToDescriptor_mk_of_ne_nil (joinChars ((x :: xs).map componentChars)) hne]
    rw [hsplit, optMapM_map]
    exact optMapM_all_some _ quantize (x :: xs) (fun a _ => parseComponent_componentChars a)

theorem quantize_tolerance (q : ℚ) : |quantize q - q| ≤ 1 / 2000000 := by
  have h : quantize q - q = ((round (q * 1000000) : ℤ) - q * 1000000) / 1000000 := by
    unfold quantize codecScale
    push_cast
    ring
  rw [h, abs_div]
  have habs : |(1000000 : ℚ)| = 1000000 := abs_of_pos (by norm_num)
  rw [habs]
  have hc : |((round (q * 1000000) : ℤ) : ℚ) - q * 1000000| ≤ 1 / 2 := by
    rw [abs_sub_comm]
    exact abs_sub_round (q * 1000000)
  have h2 : |((round (q * 1000000) : ℤ) : ℚ) - q * 1000000| / 1000000 ≤ (1 / 2) / 1000000 := by
    gcongr
  have h3 : ((1 : ℚ) / 2) / 1000000 = 1 / 2000000 := by norm_num
  linarith

/-! ## Matcher loop lemmas -/

theorem candDists_cons_none {probe : List ℚ} {r : AttRecord} {rs : List AttRecord}
    (h : candDistSq probe r = none) : candDists probe (r :: rs) = candDists probe rs := by
  simp [candDists, List.filterMap_cons, h]

theorem candDists_cons_some {probe : List ℚ} {r : AttRecord} {rs : List AttRecord} {x : ℚ}
    (h : candDistSq probe r = some x) : candDists probe (r :: rs) = x :: candDists probe rs := by
  simp [candDists, List.filterMap_cons, h]

theorem foldl_min_le_init (xs : List ℚ) (d : ℚ) : xs.foldl min d ≤ d := by
  induction xs generalizing d with
  | nil => exact le_refl d
  | cons x xs ih =>
    rw [List.foldl_cons]
    exact le_trans (ih (min d x)) (min_le_left d x)

theorem foldl_min_le_mem {xs : List ℚ} {x : ℚ} (h : x ∈ xs) (d : ℚ) : xs.foldl min d ≤ x := by
  induction xs generalizing d with
  | nil => exact absurd h (List.not_mem_nil x)
  | cons y ys ih =>
    rw [List.foldl_cons]
    rcases List.mem_cons.mp h with h' | h'
    · subst h'
      exact le_trans (foldl_min_le_init ys (min d x)) (min_le_right d x)
    · exact ih h' (min d y)

theorem foldl_min_eq_or_mem (xs : List ℚ) (d : ℚ) : xs.foldl min d = d ∨ xs.foldl min d ∈ xs := by
  induction xs generalizing d with
  | nil => exact Or.inl rfl
  | cons x xs ih =>
    rw [List.foldl_cons]
    rcases ih (min d x) with h | h
    · rcases le_or_lt d x with hdx | hdx
      · exact Or.inl (by rw [h, min_eq_left hdx])
      · refine Or.inr ?below
        rw [h, min_eq_right (le_of_lt hdx)]
        exact List.mem_cons_self x xs
    · exact Or.inr (List.mem_cons_of_mem x h)

theorem foldl_min_comm (xs : List ℚ) (a b : ℚ) :
    xs.foldl min (min a b) = min a (xs.foldl min b) := by
  induction xs generalizing b with
  | nil => rfl
  | cons x xs ih =>
    rw [List.foldl_cons, List.foldl_cons, min_assoc, ih (min b x)]

theorem matchLoop_snd (probe : List ℚ) (rs : List AttRecord) (b : Option AttRecord) (d : ℚ) :
    (matchLoop probe rs b d).2 = (candDists probe rs).foldl min d := by
  induction rs generalizing b d with
  | nil => rfl
  | cons r rs ih =>
    rw [matchLoop]
    cases hc : candDistSq probe r with
    | none => rw [candDists_cons_none hc, ih]
    | some x =>
      rw [candDists_cons_some hc, List.foldl_cons]
      by_cases hx : x < d
      · simp only [if_pos hx]
        rw [ih, min_eq_right (le_of_lt hx)]
      · simp only [if_neg hx]
        rw [ih, min_eq_left (le_of_not_lt hx)]

theorem matchLoop_no_improve (probe : List ℚ) (rs : List AttRecord) (b : Option AttRecord) (d : ℚ)
    (h : ∀ x ∈ candDists probe rs, ¬ x < d) : matchLoop probe rs b d = (b, d) := by
  induction rs generalizing b with
  | nil => rfl
  | cons r rs ih =>
    rw [matchLoop]
    cases hc : candDistSq probe r with
    | none =>
      exact ih b (fun x hx => h x (by rw [candDists_cons_none hc]; exact hx))
    | some x =>
      have hx : ¬ x < d := h x (by rw [candDists_cons_some hc]; exact List.mem_cons_self x _)
      simp only [if_neg hx]
      exact ih b (fun y hy => h y (by rw [candDists_cons_some hc]; exact List.mem_cons_of_mem x hy))

theorem matchLoop_fst (probe : List ℚ) (rs : List AttRecord) (b : Option AttRecord) (d : ℚ)
    (h : (candDists probe rs).foldl min d < d) :
    (matchLoop probe rs b d).1 =
      rs.find? (fun r => candDistSq probe r == some ((candDists probe rs).foldl min d)) := by
  induction rs generalizing b d with
  | nil => exact absurd h (lt_irrefl d)
  | cons r rs ih =>
    cases hc : candDistSq probe r with
    | none =>
      rw [candDists_cons_none hc] at h ⊢
      simp only [matchLoop, hc]
      rw [List.find?_cons_of_neg _ (by simp [hc])]
      exact ih b d h
    | some x =>
      rw [candDists_cons_some hc] at h ⊢
      simp only [matchLoop, hc]
      by_cases hx : x < d
      · simp only [if_pos hx]
        rw [List.foldl_cons, min_eq_right (le_of_lt hx)] at h ⊢
        by_cases himp : (candDists probe rs).foldl min x < x
        · rw [List.find?_cons_of_neg _ (by
            simp only [hc, beq_iff_eq, Option.some.injEq]
            intro hcon
            linarith)]
          exact ih (some r) x himp
        · have heq : (candDists probe rs).foldl min x = x :=
            le_antisymm (foldl_min_le_init (candDists probe rs) x) (le_of_not_lt himp)
          rw [heq]
          rw [List.find?_cons_of_pos _ (by simp [hc])]
          have hloop := matchLoop_no_improve probe rs (some r) x
            (fun y hy hlt => himp (lt_of_le_of_lt (foldl_min_le_mem hy x) hlt))
          rw [hloop]
      · simp only [if_neg hx]
        rw [List.foldl_cons, min_eq_left (le_of_not_lt hx)] at h ⊢
        rw [List.find?_cons_of_neg _ (by
          simp only [hc, beq_iff_eq, Option.some.injEq]
          intro hcon
          have hdx : d ≤ x := le_of_not_lt hx
          linarith)]
        exact ih b d h

theorem candDistSq_metadata {probe : List ℚ} {r : AttRecord} {q : ℚ}
    (h : candDistSq probe r = some q) :
    ∃ md, r.device_info.bind DeviceInfo.metadata = some md := by
  unfold candDistSq at h
  cases hdi : r.device_info with
  | none => simp [hdi] at h
  | some di =>
    simp only [hdi] at h
    cases hmd : di.metadata with
    | none => simp [hmd] at h
    | some md => exact ⟨md, hmd⟩

theorem records_ne_nil_of_minDistSq {probe : List ℚ} {records : List AttRecord} {m : ℚ}
    (h : minDistSq probe records = some m) : records ≠ [] := by
  intro hcon
  subst hcon
  exact absurd h (by simp [minDistSq, candDists])

theorem minDistSq_spec {probe : List ℚ} {records : List AttRecord} {m : ℚ}
    (h : minDistSq probe records = some m) :
    (∃ r ∈ records, candDistSq probe r = some m) ∧
      ∀ r ∈ records, ∀ q, candDistSq probe r = some q → m ≤ q := by
  unfold minDistSq at h
  cases hc : candDists probe records with
  | nil => rw [hc] at h; exact absurd h (by simp)
  | cons x xs =>
    rw [hc] at h
    have hm : m = xs.foldl min x := (Option.some.inj h).symm
    constructor
    · have hmem : m ∈ candDists probe records := by
        rw [hc, hm]
        rcases foldl_min_eq_or_mem xs x with h1 | h1
        · rw [h1]; exact List.mem_cons_self x xs
        · exact List.mem_cons_of_mem x h1
      obtain ⟨r, hr, hrq⟩ := List.mem_filterMap.mp hmem
      exact ⟨r, hr, hrq⟩
    · intro r hr q hq
      have hqmem : q ∈ candDists probe records := List.mem_filterMap.mpr ⟨r, hr, hq⟩
      rw [hc] at hqmem
      rw [hm]
      rcases List.mem_cons.mp hqmem with h1 | h1
      · rw [h1]; exact foldl_min_le_init xs x
      · exact foldl_min_le_mem h1 x

theorem foldl_min_from_threshold {probe : List ℚ} {records : List AttRecord} {m : ℚ}
    (h : minDistSq probe records = some m) :
    (candDists probe records).foldl min thresholdSq = min thresholdSq m := by
  unfold minDistSq at h
  cases hc : candDists probe records with
  | nil => rw [hc] at h; exact absurd h (by simp)
  | cons x xs =>
    rw [hc] at h
    have hm : m = xs.foldl min x := (Option.some.inj h).symm
    rw [List.foldl_cons, foldl_min_comm, hm]

theorem isEmpty_false_of_ne_nil {l : List AttRecord} (h : l ≠ []) : l.isEmpty = false := by
  cases l with
  | nil => exact absurd rfl h
  | cons a as => rfl

theorem matchCandidates_of_lt {probe : List ℚ} {records : List AttRecord} {m : ℚ}
    (h : minDistSq probe records = some m) (hlt : m < thresholdSq) :
    ∃ r, records.find? (fun x => candDistSq probe x == some m) = some r ∧
      matchCandidates probe records = ⟨true, some (employeeOfRec r), some m⟩ := by
  have hne := records_ne_nil_of_minDistSq h
  have hfold : (candDists probe records).foldl min thresholdSq = m := by
    rw [foldl_min_from_threshold h, min_eq_right (le_of_lt hlt)]
  have himp : (candDists probe records).foldl min thresholdSq < thresholdSq := by
    rw [hfold]; exact hlt
  have hfst := matchLoop_fst probe records none thresholdSq himp
  rw [hfold] at hfst
  have hsnd := matchLoop_snd probe records none thresholdSq
  rw [hfold] at hsnd
  cases hfind : records.find? (fun x => candDistSq probe x == some m) with
  | none =>
    rw [hfind] at hfst
    obtain ⟨⟨r, hr, hrq⟩, _⟩ := minDistSq_spec h
    have : (records.find? (fun x => candDistSq probe x == some m)).isSome := by
      rw [List.find?_isSome]
      exact ⟨r, hr, by simp [hrq]⟩
    rw [hfind] at this
    exact absurd this (by simp)
  | some r =>
    rw [hfind] at hfst
    have hrq : candDistSq probe r = some m := by
      have := List.find?_some hfind
      simpa using this
    obtain ⟨md, hmd⟩ := candDistSq_metadata hrq
    refine ⟨r, rfl, ?goal⟩
    unfold matchCandidates
    rw [isEmpty_false_of_ne_nil hne]
    simp only [Bool.false_eq_true, if_false, hfst, hmd, hsnd]

theorem matchCandidates_of_ge {probe : List ℚ} {records : List AttRecord} {m : ℚ}
    (h : minDistSq probe records = some m) (hge : thresholdSq ≤ m) :
    matchCandidates probe records = noMatchResult := by
  have hne := records_ne_nil_of_minDistSq h
  have hloop := matchLoop_no_improve probe records none thresholdSq
    (fun y hy hlt => by
      have hmy := (minDistSq_spec h).2
      have : m ≤ y := by
        obtain ⟨r, hr, hrq⟩ := List.mem_filterMap.mp hy
        exact hmy r hr y hrq
      linarith)
  unfold matchCandidates
  rw [isEmpty_false_of_ne_nil hne]
  simp only [Bool.false_eq_true, if_false, hloop]

theorem matchCandidates_of_none {probe : List ℚ} {records : List AttRecord}
    (h : minDistSq probe records = none) :
    matchCandidates probe records = noMatchResult := by
  have hcd : candDists probe records = [] := by
    unfold minDistSq at h
    cases hc : candDists probe records with
    | nil => rfl
    | cons x xs => rw [hc] at h; exact absurd h (by simp)
  cases records with
  | nil => rfl
  | cons r rs =>
    have hloop := matchLoop_no_improve probe (r :: rs) none thresholdSq
      (fun y hy => by rw [hcd] at hy; exact absurd hy (List.not_mem_nil y))
    unfold matchCandidates
    simp only [List.isEmpty_cons, Bool.false_eq_true, if_false, hloop]

/-! ## Reconciler lemmas -/

theorem recomputeAbsent_present (today : ℕ) (s : CalState) :
    (recomputeAbsent today s).present = s.present := by
  unfold recomputeAbsent
  by_cases h : s.working ≠ [] ∧ (s.present ≠ [] ∨ s.late ≠ []) <;> simp [h]

theorem recomputeAbsent_late (today : ℕ) (s : CalState) :
    (recomputeAbsent today s).late = s.late := by
  unfold recomputeAbsent
  by_cases h : s.working ≠ [] ∧ (s.present ≠ [] ∨ s.late ≠ []) <;> simp [h]

theorem recomputeAbsent_working (today : ℕ) (s : CalState) :
    (recomputeAbsent today s).working = s.working := by
  unfold recomputeAbsent
  by_cases h : s.working ≠ [] ∧ (s.present ≠ [] ∨ s.late ≠ []) <;> simp [h]

theorem recomputeAbsent_of_guard (today : ℕ) (s : CalState)
    (h : s.working ≠ [] ∧ (s.present ≠ [] ∨ s.late ≠ [])) :
    recomputeAbsent today s =
      { s with absent := s.working.filter (absentFilter today s.present s.late) } := by
  unfold recomputeAbsent
  rw [if_pos h]

theorem recomputeAbsent_of_not_guard (today : ℕ) (s : CalState)
    (h : ¬ (s.working ≠ [] ∧ (s.present ≠ [] ∨ s.late ≠ []))) :
    recomputeAbsent today s = s := by
  unfold recomputeAbsent
  rw [if_neg h]

theorem recomputeAbsent_idem (today : ℕ) (s : CalState) :
    recomputeAbsent today (recomputeAbsent today s) = recomputeAbsent today s := by
  by_cases h : s.working ≠ [] ∧ (s.present ≠ [] ∨ s.late ≠ [])
  · rw [recomputeAbsent_of_guard today s h]
    rw [recomputeAbsent_of_guard today _ (by simpa using h)]
  · rw [recomputeAbsent_of_not_guard today s h, recomputeAbsent_of_not_guard today s h]

theorem recomputeAbsent_congr (today : ℕ) (s1 s2 : CalState)
    (hp : s1.present = s2.present) (hl : s1.late = s2.late) (hw : s1.working = s2.working)
    (ha : (s1.working ≠ [] ∧ (s1.present ≠ [] ∨ s1.late ≠ [])) ∨ s1.absent = s2.absent) :
    recomputeAbsent today s1 = recomputeAbsent today s2 := by
  by_cases h : s1.working ≠ [] ∧ (s1.present ≠ [] ∨ s1.late ≠ [])
  · rw [recomputeAbsent_of_guard today s1 h,
      recomputeAbsent_of_guard today s2 (by rw [← hp, ← hl, ← hw]; exact h)]
    cases s1; cases s2
    simp only [CalState.mk.injEq] at *
    simp [hp, hl, hw]
  · have h2 : ¬ (s2.working ≠ [] ∧ (s2.present ≠ [] ∨ s2.late ≠ [])) := by
      rw [← hp, ← hl, ← hw]; exact h
    rcases ha with ha | ha
    · exact absurd ha h
    · rw [recomputeAbsent_of_not_guard today s1 h, recomputeAbsent_of_not_guard today s2 h2]
      cases s1; cases s2
      simp only [CalState.mk.injEq] at *
      simp [hp, hl, hw, ha]

theorem liveApply_absent (evs : List AttRecord) (faceId : String) (s : CalState) :
    (liveApply evs faceId s).absent = s.absent := by
  unfold liveApply
  by_cases h1 : (evs.filter (liveFaceFilter faceId)).isEmpty
  · simp [h1]
  · simp only [h1, Bool.false_eq_true, if_false]
    by_cases h2 : (buildDates (evs.filter (liveFaceFilter faceId)) ([], [])).1.isEmpty <;>
      by_cases h3 : (buildDates (evs.filter (liveFaceFilter faceId)) ([], [])).2.isEmpty <;>
      simp [h2, h3]

theorem liveApply_working (evs : List AttRecord) (faceId : String) (s : CalState) :
    (liveApply evs faceId s).working = s.working := by
  unfold liveApply
  by_cases h1 : (evs.filter (liveFaceFilter faceId)).isEmpty
  · simp [h1]
  · simp only [h1, Bool.false_eq_true, if_false]
    by_cases h2 : (buildDates (evs.filter (liveFaceFilter faceId)) ([], [])).1.isEmpty <;>
      by_cases h3 : (buildDates (evs.filter (liveFaceFilter faceId)) ([], [])).2.isEmpty <;>
      simp [h2, h3]

theorem histApply_absent (q1 q2 : QueryRes) (s : CalState) :
    (histApply q1 q2 s).absent = s.absent := by
  unfold histApply
  by_cases h1 : (histAllRecords q1 q2).isEmpty
  · simp [h1]
  · simp only [h1, Bool.false_eq_true, if_false]
    by_cases h3 : (((histAllRecords q1 q2).map normalizeRecord).filter histLatePred).isEmpty <;>
      simp [h3]

theorem histApply_working (q1 q2 : QueryRes) (s : CalState) :
    (histApply q1 q2 s).working = s.working := by
  unfold histApply
  by_cases h1 : (histAllRecords q1 q2).isEmpty
  · simp [h1]
  · simp only [h1, Bool.false_eq_true, if_false]
    by_cases h3 : (((histAllRecords q1 q2).map normalizeRecord).filter histLatePred).isEmpty <;>
      simp [h3]

theorem calStateExt (a b : CalState) (h1 : a.present = b.present) (h2 : a.late = b.late)
    (h3 : a.absent = b.absent) (h4 : a.working = b.working) : a = b := by
  cases a; cases b
  simp only [CalState.mk.injEq]
  exact ⟨h1, h2, h3, h4⟩

theorem histAllRecords_ok (R : List AttRecord) (faceId : String) :
    histAllRecords (okQueryById R faceId) (okQueryByUserId R faceId) = matchedRecords R faceId :=
  rfl

theorem histApply_present (q1 q2 : QueryRes) (s : CalState) :
    (histApply q1 q2 s).present =
      (((histAllRecords q1 q2).map normalizeRecord).filter histPresentPred).map AttRecord.ts := by
  unfold histApply
  by_cases h1 : (histAllRecords q1 q2).isEmpty
  · have hnil : histAllRecords q1 q2 = [] := by
      cases hl : histAllRecords q1 q2 with
      | nil => rfl
      | cons a as => rw [hl] at h1; simp at h1
    simp [h1, hnil]
  · simp only [h1, Bool.false_eq_true, if_false]
    rw [apply_ite CalState.present]
    simp only [ite_self]
    by_cases h2 : (((histAllRecords q1 q2).map normalizeRecord).filter histPresentPred).isEmpty
    · have hnil2 : ((histAllRecords q1 q2).map normalizeRecord).filter histPresentPred = [] := by
        simpa [List.isEmpty_iff] using h2
      rw [if_pos h2, hnil2]
      rfl
    · rw [if_neg h2]

theorem histApply_late (q1 q2 : QueryRes) (s : CalState) :
    (histApply q1 q2 s).late =
      (((histAllRecords q1 q2).map normalizeRecord).filter histLatePred).map AttRecord.ts := by
  unfold histApply
  by_cases h1 : (histAllRecords q1 q2).isEmpty
  · have hnil : histAllRecords q1 q2 = [] := by
      cases hl : histAllRecords q1 q2 with
      | nil => rfl
      | cons a as => rw [hl] at h1; simp at h1
    simp [h1, hnil]
  · simp only [h1, Bool.false_eq_true, if_false]
    by_cases h3 : (((histAllRecords q1 q2).map normalizeRecord).filter histLatePred).isEmpty
    · have hnil3 : ((histAllRecords q1 q2).map normalizeRecord).filter histLatePred = [] := by
        simpa [List.isEmpty_iff] using h3
      simp [h3, hnil3]
    · simp [h3]

theorem histApply_ok_eq (R : List AttRecord) (faceId : String) (s : CalState) :
    histApply (okQueryById R faceId) (okQueryByUserId R faceId) s =
      { s with present := histPresentDays R faceId, late := histLateDays R faceId } := by
  apply calStateExt
  · rw [histApply_present, histAllRecords_ok]; rfl
  · rw [histApply_late, histAllRecords_ok]; rfl
  · rw [histApply_absent]
  · rw [histApply_working]

theorem livePresentCheck_canonical {s : String} (h : canonicalStatus s) :
    livePresentCheck s = true ↔ toLowerStr s = "present" := by
  have hbeq : (s == "Present") = true → toLowerStr s = "present" := by
    intro hb
    have : s = "Present" := eq_of_beq hb
    rw [this]
    decide
  constructor
  · intro hl
    unfold livePresentCheck at hl
    rw [Bool.or_eq_true] at hl
    rcases hl with hb | hb
    · exact hbeq hb
    · rcases h with hc | hc | hc | hc <;> rw [hc] at hb <;> first
        | exact hc
        | exact absurd hb (by decide)
  · intro hlow
    unfold livePresentCheck
    rw [hlow]
    have hinc : strIncludes "present" "present" = true := by decide
    rw [hinc, Bool.or_true]

theorem liveLateCheck_canonical {s : String} (h : canonicalStatus s) :
    liveLateCheck s = true ↔ toLowerStr s = "late" := by
  have hbeq : (s == "Late") = true → toLowerStr s = "late" := by
    intro hb
    have : s = "Late" := eq_of_beq hb
    rw [this]
    decide
  constructor
  · intro hl
    unfold liveLateCheck at hl
    rw [Bool.or_eq_true] at hl
    rcases hl with hb | hb
    · exact hbeq hb
    · rcases h with hc | hc | hc | hc <;> rw [hc] at hb <;> first
        | exact hc
        | exact absurd hb (by decide)
  · intro hlow
    unfold liveLateCheck
    rw [hlow]
    have hinc : strIncludes "late" "late" = true := by decide
    rw [hinc, Bool.or_true]

theorem mem_buildDates_fst :
    ∀ (rs : List AttRecord) (ps ls : List ℕ) (x : ℕ), x ∈ (buildDates rs (ps, ls)).1 →
      x ∈ ps ∨ ∃ r ∈ rs, livePresentCheck r.status = true ∧ x = truncDate r.ts := by
  intro rs
  induction rs with
  | nil => intro ps ls x hx; exact Or.inl hx
  | cons r rs ih =>
    intro ps ls x hx
    rw [buildDates] at hx
    by_cases h1 : (ps.contains (truncDate r.ts) || ls.contains (truncDate r.ts)) = true
    · rw [if_pos h1] at hx
      rcases ih ps ls x hx with h | ⟨r', hr', hc', he'⟩
      · exact Or.inl h
      · exact Or.inr ⟨r', List.mem_cons_of_mem r hr', hc', he'⟩
    · rw [if_neg h1] at hx
      by_cases h2 : livePresentCheck r.status = true
      · rw [if_pos h2] at hx
        rcases ih (ps ++ [truncDate r.ts]) ls x hx with h | ⟨r', hr', hc', he'⟩
        · rcases List.mem_append.mp h with h' | h'
          · exact Or.inl h'
          · have : x = truncDate r.ts := by simpa using h'
            exact Or.inr ⟨r, List.mem_cons_self r rs, h2, this⟩
        · exact Or.inr ⟨r', List.mem_cons_of_mem r hr', hc', he'⟩
      · rw [if_neg h2] at hx
        by_cases h3 : liveLateCheck r.status = true
        · rw [if_pos h3] at hx
          rcases ih ps (ls ++ [truncDate r.ts]) x hx with h | ⟨r', hr', hc', he'⟩
          · exact Or.inl h
          · exact Or.inr ⟨r', List.mem_cons_of_mem r hr', hc', he'⟩
        · rw [if_neg h3] at hx
          rcases ih ps ls x hx with h | ⟨r', hr', hc', he'⟩
          · exact Or.inl h
          · exact Or.inr ⟨r', List.mem_cons_of_mem r hr', hc', he'⟩

theorem mem_buildDates_snd :
    ∀ (rs : List AttRecord) (ps ls : List ℕ) (x : ℕ), x ∈ (buildDates rs (ps, ls)).2 →
      x ∈ ls ∨ ∃ r ∈ rs, liveLateCheck r.status = true ∧ x = truncDate r.ts := by
  intro rs
  induction rs with
  | nil => intro ps ls x hx; exact Or.inl hx
  | cons r rs ih =>
    intro ps ls x hx
    rw [buildDates] at hx
    by_cases h1 : (ps.contains (truncDate r.ts) || ls.contains (truncDate r.ts)) = true
    · rw [if_pos h1] at hx
      rcases ih ps ls x hx with h | ⟨r', hr', hc', he'⟩
      · exact Or.inl h
      · exact Or.inr ⟨r', List.mem_cons_of_mem r hr', hc', he'⟩
    · rw [if_neg h1] at hx
      by_cases h2 : livePresentCheck r.status = true
      · rw [if_pos h2] at hx
        rcases ih (ps ++ [truncDate r.ts]) ls x hx with h | ⟨r', hr', hc', he'⟩
        · exact Or.inl h
        · exact Or.inr ⟨r', List.mem_cons_of_mem r hr', hc', he'⟩
      · rw [if_neg h2] at hx
        by_cases h3 : liveLateCheck r.status = true
        · rw [if_pos h3] at hx
          rcases ih ps (ls ++ [truncDate r.ts]) x hx with h | ⟨r', hr', hc', he'⟩
          · rcases List.mem_append.mp h with h' | h'
            · exact Or.inl h'
            · have : x = truncDate r.ts := by simpa using h'
              exact Or.inr ⟨r, List.mem_cons_self r rs, h3, this⟩
          · exact Or.inr ⟨r', List.mem_cons_of_mem r hr', hc', he'⟩
        · rw [if_neg h3] at hx
          rcases ih ps ls x hx with h | ⟨r', hr', hc', he'⟩
          · exact Or.inl h
          · exact Or.inr ⟨r', List.mem_cons_of_mem r hr', hc', he'⟩

theorem mergeDates_covered :
    ∀ (new prev : List ℕ), (∀ d ∈ new, isDateInArray d prev = true) → mergeDates prev new = prev := by
  intro new
  induction new with
  | nil => intro prev _; rfl
  | cons d ds ih =>
    intro prev h
    unfold mergeDates
    rw [List.foldl_cons]
    rw [if_pos (h d (List.mem_cons_self d ds))]
    exact ih prev (fun x hx => h x (List.mem_cons_of_mem d hx))

theorem mem_mergeDates :
    ∀ (new prev : List ℕ) (x : ℕ), x ∈ mergeDates prev new → x ∈ prev ∨ x ∈ new := by
  intro new
  induction new with
  | nil => intro prev x hx; exact Or.inl hx
  | cons d ds ih =>
    intro prev x hx
    unfold mergeDates at hx
    rw [List.foldl_cons] at hx
    by_cases h1 : isDateInArray d prev = true
    · rw [if_pos h1] at hx
      rcases ih prev x hx with h | h
      · exact Or.inl h
      · exact Or.inr (List.mem_cons_of_mem d h)
    · rw [if_neg h1] at hx
      rcases ih (prev ++ [d]) x hx with h | h
      · rcases List.mem_append.mp h with h' | h'
        · exact Or.inl h'
        · have : x = d := by simpa using h'
          exact Or.inr (this ▸ List.mem_cons_self d ds)
      · exact Or.inr (List.mem_cons_of_mem d h)

theorem isDateInArray_of_ts_mem {t : ℕ} {arr : List ℕ} (h : t ∈ arr) :
    isDateInArray (truncDate t) arr = true := by
  unfold isDateInArray
  rw [List.any_eq_true]
  exact ⟨t, h, by simp [sameCalendarDate, dayOf_truncDate]⟩

theorem mem_matchedRecords_of_live {R L : List AttRecord} {faceId : String} {r : AttRecord}
    (hsub : ∀ x ∈ L, x ∈ R) (hr : r ∈ L.filter (liveFaceFilter faceId)) :
    r ∈ matchedRecords R faceId := by
  obtain ⟨hrL, hpred⟩ := List.mem_filter.mp hr
  have hR := hsub r hrL
  unfold liveFaceFilter at hpred
  rw [Bool.or_eq_true] at hpred
  unfold matchedRecords
  rcases hpred with hb | hb
  · exact List.mem_append_right _ (List.mem_filter.mpr ⟨hR, hb⟩)
  · exact List.mem_append_left _ (List.mem_filter.mpr ⟨hR, hb⟩)

theorem ts_mem_histPresentDays {R : List AttRecord} {faceId : String} {r : AttRecord}
    (hm : r ∈ matchedRecords R faceId) (hp : histPresentPred (normalizeRecord r) = true) :
    r.ts ∈ histPresentDays R faceId := by
  unfold histPresentDays
  have h1 : normalizeRecord r ∈ (matchedRecords R faceId).map normalizeRecord :=
    List.mem_map_of_mem normalizeRecord hm
  have h2 : normalizeRecord r ∈ ((matchedRecords R faceId).map normalizeRecord).filter histPresentPred :=
    List.mem_filter.mpr ⟨h1, hp⟩
  have h3 := List.mem_map_of_mem AttRecord.ts h2
  simpa [normalizeRecord] using h3

theorem ts_mem_histLateDays {R : List AttRecord} {faceId : String} {r : AttRecord}
    (hm : r ∈ matchedRecords R faceId) (hp : histLatePred (normalizeRecord r) = true) :
    r.ts ∈ histLateDays R faceId := by
  unfold histLateDays
  have h1 : normalizeRecord r ∈ (matchedRecords R faceId).map normalizeRecord :=
    List.mem_map_of_mem normalizeRecord hm
  have h2 : normalizeRecord r ∈ ((matchedRecords R faceId).map normalizeRecord).filter histLatePred :=
    List.mem_filter.mpr ⟨h1, hp⟩
  have h3 := List.mem_map_of_mem AttRecord.ts h2
  simpa [normalizeRecord] using h3

theorem live_ps_covered (R L : List AttRecord) (faceId : String)
    (hcan : ∀ r ∈ R, canonicalStatus r.status) (hsub : ∀ r ∈ L, r ∈ R) :
    ∀ d ∈ (buildDates (L.filter (liveFaceFilter faceId)) ([], [])).1,
      isDateInArray d (histPresentDays R faceId) = true := by
  intro d hd
  rcases mem_buildDates_fst _ [] [] d hd with h | ⟨r, hrf, hchk, heq⟩
  · exact absurd h (List.not_mem_nil d)
  · have hR : r ∈ R := hsub r (List.mem_filter.mp hrf).1
    have hlow := (livePresentCheck_canonical (hcan r hR)).mp hchk
    have hpred : histPresentPred (normalizeRecord r) = true := by
      simp [histPresentPred, normalizeRecord, hlow]
    have hts := ts_mem_histPresentDays (mem_matchedRecords_of_live hsub hrf) hpred
    rw [heq]
    exact isDateInArray_of_ts_mem hts

theorem live_ls_covered (R L : List AttRecord) (faceId : String)
    (hcan : ∀ r ∈ R, canonicalStatus r.status) (hsub : ∀ r ∈ L, r ∈ R) :
    ∀ d ∈ (buildDates (L.filter (liveFaceFilter faceId)) ([], [])).2,
      isDateInArray d (histLateDays R faceId) = true := by
  intro d hd
  rcases mem_buildDates_snd _ [] [] d hd with h | ⟨r, hrf, hchk, heq⟩
  · exact absurd h (List.not_mem_nil d)
  · have hR : r ∈ R := hsub r (List.mem_filter.mp hrf).1
    have hlow := (liveLateCheck_canonical (hcan r hR)).mp hchk
    have hpred : histLatePred (normalizeRecord r) = true := by
      simp [histLatePred, normalizeRecord, hlow]
    have hts := ts_mem_histLateDays (mem_matchedRecords_of_live hsub hrf) hpred
    rw [heq]
    exact isDateInArray_of_ts_mem hts

theorem liveApply_covered_eq (evs : List AttRecord) (faceId : String) (s : CalState)
    (hp : ∀ d ∈ (buildDates (evs.filter (liveFaceFilter faceId)) ([], [])).1,
      isDateInArray d s.present = true)
    (hl : ∀ d ∈ (buildDates (evs.filter (liveFaceFilter faceId)) ([], [])).2,
      isDateInArray d s.late = true) :
    liveApply evs faceId s = s := by
  have hmp : mergeDates s.present (buildDates (evs.filter (liveFaceFilter faceId)) ([], [])).1
      = s.present := mergeDates_covered _ _ hp
  have hml : mergeDates s.late (buildDates (evs.filter (liveFaceFilter faceId)) ([], [])).2
      = s.late := mergeDates_covered _ _ hl
  unfold liveApply
  by_cases h1 : (evs.filter (liveFaceFilter faceId)).isEmpty
  · simp [h1]
  · simp only [h1, Bool.false_eq_true, if_false]
    by_cases h2 : (buildDates (evs.filter (liveFaceFilter faceId)) ([], [])).1.isEmpty <;>
      by_cases h3 : (buildDates (evs.filter (liveFaceFilter faceId)) ([], [])).2.isEmpty <;>
      simp only [h2, h3, Bool.false_eq_true, if_false, if_true, hmp, hml] <;>
      cases s <;> rfl

theorem liveApply_present_cases (evs : List AttRecord) (faceId : String) (s : CalState) :
    (liveApply evs faceId s).present = s.present ∨
      (liveApply evs faceId s).present =
        mergeDates s.present (buildDates (evs.filter (liveFaceFilter faceId)) ([], [])).1 := by
  unfold liveApply
  by_cases h1 : (evs.filter (liveFaceFilter faceId)).isEmpty
  · simp [h1]
  · simp only [h1, Bool.false_eq_true, if_false]
    by_cases h2 : (buildDates (evs.filter (liveFaceFilter faceId)) ([], [])).1.isEmpty <;>
      by_cases h3 : (buildDates (evs.filter (liveFaceFilter faceId)) ([], [])).2.isEmpty <;>
      simp only [h2, h3, Bool.false_eq_true, if_false, if_true] <;> simp

theorem initState_eq (y m : ℕ) :
    initState y m = ⟨[], [], [], generateWorkingDays y m⟩ := rfl

theorem histStep_init (R : List AttRecord) (faceId : String) (today y m : ℕ) :
    histStep R faceId today (initState y m) =
      recomputeAbsent today
        ⟨histPresentDays R faceId, histLateDays R faceId, [], generateWorkingDays y m⟩ := by
  unfold histStep
  rw [histApply_ok_eq]
  rfl

theorem hist_live_commute_core (R L : List AttRecord) (faceId : String) (today y m : ℕ)
    (hcan : ∀ r ∈ R, canonicalStatus r.status) (hsub : ∀ r ∈ L, r ∈ R) :
    liveStep L faceId today (histStep R faceId today (initState y m))
      = histStep R faceId today (liveStep L faceId today (initState y m)) := by
  have hcovP := live_ps_covered R L faceId hcan hsub
  have hcovL := live_ls_covered R L faceId hcan hsub
  set P := histPresentDays R faceId with hPdef
  set Lt := histLateDays R faceId with hLtdef
  set W := generateWorkingDays y m with hWdef
  set H := recomputeAbsent today (⟨P, Lt, [], W⟩ : CalState) with hHdef
  have hLHS : liveStep L faceId today (histStep R faceId today (initState y m)) = H := by
    rw [histStep_init]
    unfold liveStep
    rw [liveApply_covered_eq L faceId H
      (by rw [hHdef, recomputeAbsent_present]; exact hcovP)
      (by rw [hHdef, recomputeAbsent_late]; exact hcovL)]
    rw [hHdef]
    exact recomputeAbsent_idem today _
  rw [hLHS]
  have hT1w : (liveStep L faceId today (initState y m)).working = W := by
    unfold liveStep
    rw [recomputeAbsent_working, liveApply_working]
    rfl
  unfold histStep
  rw [histApply_ok_eq]
  have hmid : ({ liveStep L faceId today (initState y m) with
      present := P, late := Lt } : CalState)
      = ⟨P, Lt, (liveStep L faceId today (initState y m)).absent, W⟩ := by
    apply calStateExt <;> simp [hT1w]
  rw [hmid, hHdef]
  refine recomputeAbsent_congr today (⟨P, Lt, [], W⟩ : CalState)
    (⟨P, Lt, (liveStep L faceId today (initState y m)).absent, W⟩ : CalState) rfl rfl rfl ?ha
  by_cases hg : (W ≠ [] ∧ (P ≠ [] ∨ Lt ≠ []))
  · exact Or.inl (by simpa using hg)
  · refine Or.inr ?absentEq
    push_neg at hg
    by_cases hW : W = []
    · have hUw : (liveApply L faceId (initState y m)).working = [] := by
        rw [liveApply_working]
        exact hW
      have hT1 : liveStep L faceId today (initState y m) = liveApply L faceId (initState y m) := by
        unfold liveStep
        exact recomputeAbsent_of_not_guard today _ (fun hcon => hcon.1 hUw)
      rw [hT1, liveApply_absent]
      rfl
    · obtain ⟨hP, hLt⟩ := hg hW
      have hps : ∀ d ∈ (buildDates (L.filter (liveFaceFilter faceId)) ([], [])).1,
          isDateInArray d (initState y m).present = true := by
        intro d hd
        have := hcovP d hd
        rw [hP] at this
        exact absurd this (by simp [isDateInArray])
      have hls : ∀ d ∈ (buildDates (L.filter (liveFaceFilter faceId)) ([], [])).2,
          isDateInArray d (initState y m).late = true := by
        intro d hd
        have := hcovL d hd
        rw [hLt] at this
        exact absurd this (by simp [isDateInArray])
      have hU : liveApply L faceId (initState y m) = initState y m :=
        liveApply_covered_eq L faceId _ hps hls
      have hT1 : liveStep L faceId today (initState y m) = initState y m := by
        unfold liveStep
        rw [hU]
        exact recomputeAbsent_of_not_guard today _ (fun hcon => by
          rcases hcon.2 with hcon2 | hcon2 <;> exact hcon2 rfl)
      rw [hT1]
      rfl

theorem histStep_present (R : List AttRecord) (faceId : String) (today : ℕ) (s : CalState) :
    (histStep R faceId today s).present = histPresentDays R faceId := by
  unfold histStep
  rw [recomputeAbsent_present, histApply_ok_eq]

theorem sameCalendarDate_trans {a b c : ℕ} (h1 : sameCalendarDate a b = true)
    (h2 : sameCalendarDate b c = true) : sameCalendarDate a c = true := by
  unfold sameCalendarDate at *
  rw [beq_iff_eq] at *
  exact h1.trans h2

theorem isDateInArray_of_same {d x : ℕ} {arr : List ℕ} (h : isDateInArray x arr = true)
    (hsame : sameCalendarDate x d = true) : isDateInArray d arr = true := by
  unfold isDateInArray at *
  rw [List.any_eq_true] at *
  obtain ⟨y, hy, hsy⟩ := h
  exact ⟨y, hy, sameCalendarDate_trans hsy hsame⟩

theorem live_dates_survive (R L : List AttRecord) (faceId : String) (today y m : ℕ)
    (hcan : ∀ r ∈ R, canonicalStatus r.status) (hsub : ∀ r ∈ L, r ∈ R) :
    ∀ d, isDateInArray d (liveStep L faceId today (initState y m)).present = true →
      isDateInArray d
        (histStep R faceId today (liveStep L faceId today (initState y m))).present = true := by
  intro d hd
  rw [histStep_present]
  have hd2 : isDateInArray d (liveApply L faceId (initState y m)).present = true := by
    unfold liveStep at hd
    rw [recomputeAbsent_present] at hd
    exact hd
  rcases liveApply_present_cases L faceId (initState y m) with hc | hc
  · rw [hc] at hd2
    exact absurd hd2 (by simp [isDateInArray, initState])
  · rw [hc] at hd2
    unfold isDateInArray at hd2
    rw [List.any_eq_true] at hd2
    obtain ⟨x, hx, hsame⟩ := hd2
    rcases mem_mergeDates _ _ x hx with hx' | hx'
    · exact absurd hx' (by simp [initState])
    · exact isDateInArray_of_same (live_ps_covered R L faceId hcan hsub x hx') hsame

theorem absentFilter_eq_true {today : ℕ} {present late : List ℕ} {w : ℕ} :
    absentFilter today present late w = true ↔
      w ≤ today ∧ isDateInArray w present = false ∧ isDateInArray w late = false := by
  unfold absentFilter
  rw [Bool.and_eq_true, Bool.and_eq_true]
  simp only [Bool.not_eq_true', decide_eq_false_iff_not, Nat.not_lt]
  tauto

theorem recompute_invariant (today : ℕ) (u : CalState)
    (ha : ∀ a ∈ u.absent, a ∈ u.working ∧ a ≤ today) :
    calInvariant today (recomputeAbsent today u) := by
  by_cases hg : u.working ≠ [] ∧ (u.present ≠ [] ∨ u.late ≠ [])
  · rw [recomputeAbsent_of_guard today u hg]
    constructor
    · intro a hae
      obtain ⟨haw, hpred⟩ := List.mem_filter.mp hae
      obtain ⟨h1, h2, h3⟩ := absentFilter_eq_true.mp hpred
      exact ⟨haw, h1, h2, h3⟩
    · intro _ w hw hwt
      by_cases hpw : isDateInArray w u.present = true
      · exact Or.inl hpw
      · by_cases hlw : isDateInArray w u.late = true
        · exact Or.inr (Or.inl hlw)
        · refine Or.inr (Or.inr ?abs)
          refine List.mem_filter.mpr ⟨hw, ?flt⟩
          exact absentFilter_eq_true.mpr
            ⟨hwt, Bool.not_eq_true _ ▸ hpw, Bool.not_eq_true _ ▸ hlw⟩
  · rw [recomputeAbsent_of_not_guard today u hg]
    push_neg at hg
    constructor
    · intro a hae
      obtain ⟨haw, hat⟩ := ha a hae
      have hwne : u.working ≠ [] := List.ne_nil_of_mem haw
      obtain ⟨hp, hl⟩ := hg hwne
      rw [hp, hl]
      exact ⟨haw, hat, rfl, rfl⟩
    · rintro ⟨hwne, hplne⟩
      obtain ⟨hp, hl⟩ := hg hwne
      rcases hplne with hcon | hcon
      · exact absurd hp hcon
      · exact absurd hl hcon

theorem reachCal_invariant {today : ℕ} {s : CalState} (h : reachCal today s) :
    calInvariant today s := by
  induction h with
  | init y m =>
    constructor
    · intro a hae
      exact absurd hae (List.not_mem_nil a)
    · rintro ⟨_, hcon | hcon⟩ <;> exact absurd rfl hcon
  | hist q1 q2 s hr ih =>
    apply recompute_invariant
    intro a hae
    rw [histApply_absent] at hae
    rw [histApply_working]
    obtain ⟨h1, h2, _, _⟩ := ih.1 a hae
    exact ⟨h1, h2⟩
  | live evs faceId s hr ih =>
    apply recompute_invariant
    intro a hae
    rw [liveApply_absent] at hae
    rw [liveApply_working]
    obtain ⟨h1, h2, _, _⟩ := ih.1 a hae
    exact ⟨h1, h2⟩
  | clearSel s hr ih =>
    constructor
    · intro a hae
      exact absurd hae (List.not_mem_nil a)
    · rintro ⟨_, hcon | hcon⟩ <;> exact absurd rfl hcon

/-! ## Nonnegativity and the square-root bridge -/

theorem distSq_nonneg (d1 d2 : List ℚ) : 0 ≤ distSq d1 d2 := by
  unfold distSq
  apply List.sum_nonneg
  intro x hx
  obtain ⟨p, _, hp⟩ := List.mem_map.mp hx
  rw [← hp]
  exact mul_self_nonneg _

theorem candDistSq_nonneg {probe : List ℚ} {r : AttRecord} {q : ℚ}
    (h : candDistSq probe r = some q) : 0 ≤ q := by
  unfold candDistSq at h
  cases hdi : r.device_info with
  | none => simp [hdi] at h
  | some di =>
    simp only [hdi] at h
    cases hmd : di.metadata with
    | none => simp [hmd] at h
    | some md =>
      simp only [hmd] at h
      cases hfd : md.faceDescriptor with
      | none => simp [hfd] at h
      | some fd =>
        simp only [hfd] at h
        cases hsd : stringToDescriptor fd with
        | none => simp [hsd] at h
        | some desc =>
          simp only [hsd] at h
          unfold calculateDistanceSq at h
          by_cases hlen : probe.length = desc.length
          · rw [if_pos hlen] at h
            have := Option.some.inj h
            rw [← this]
            exact distSq_nonneg probe desc
          · rw [if_neg hlen] at h
            exact absurd h (by simp)

theorem minDistSq_nonneg {probe : List ℚ} {records : List AttRecord} {m : ℚ}
    (h : minDistSq probe records = some m) : 0 ≤ m := by
  obtain ⟨⟨r, _, hrq⟩, _⟩ := minDistSq_spec h
  exact candDistSq_nonneg hrq

theorem sqrt_lt_threshold_iff (m : ℚ) :
    Real.sqrt (m : ℝ) < 0.6 ↔ m < thresholdSq := by
  rw [Real.sqrt_lt' (by norm_num : (0 : ℝ) < 0.6)]
  have h2 : ((0.6 : ℝ)) ^ 2 = ((thresholdSq : ℚ) : ℝ) := by
    norm_num [thresholdSq]
  rw [h2]
  exact ⟨fun h => by exact_mod_cast h, fun h => by exact_mod_cast h⟩

theorem find?_first_index {α : Type} (p : α → Bool) :
    ∀ (l : List α) (r : α), l.find? p = some r →
      ∃ k, ∃ hk : k < l.length, l.get ⟨k, hk⟩ = r ∧
        ∀ j, ∀ hj : j < l.length, j < k → p (l.get ⟨j, hj⟩) = false := by
  intro l
  induction l with
  | nil => intro r h; simp at h
  | cons a as ih =>
    intro r h
    rw [List.find?_cons] at h
    cases hpa : p a with
    | true =>
      rw [hpa] at h
      have hra : a = r := Option.some.inj h
      exact ⟨0, by simp, hra, fun j hj hj0 => absurd hj0 (Nat.not_lt_zero j)⟩
    | false =>
      rw [hpa] at h
      obtain ⟨k, hk, hget, hearly⟩ := ih r h
      refine ⟨k + 1, by simpa using Nat.succ_lt_succ hk, hget, ?early⟩
      intro j hj hjk
      cases j with
      | zero => exact hpa
      | succ j' =>
        have hj' : j' < as.length := by simpa using hj
        exact hearly j' hj' (Nat.lt_of_succ_lt_succ hjk)

theorem quantize_half : quantize (1 / 2 : ℚ) = 1 / 2 := by
  unfold quantize codecScale
  push_cast
  rw [show ((1 : ℚ) / 2) * 1000000 = 500000 by norm_num]
  rw [show round ((500000 : ℚ)) = 500000 by rw [round_eq]; norm_num [Int.floor_eq_iff]]
  norm_num

theorem quantize_neg_half : quantize (-1 / 2 : ℚ) = -1 / 2 := by
  unfold quantize codecScale
  push_cast
  rw [show ((-1 : ℚ) / 2) * 1000000 = -500000 by norm_num]
  rw [show round ((-500000 : ℚ)) = -500000 by rw [round_eq]; norm_num [Int.floor_eq_iff]]
  norm_num

theorem quantize_third : quantize (1 / 3 : ℚ) = 333333 / 1000000 := by
  unfold quantize codecScale
  push_cast
  rw [show ((1 : ℚ) / 3) * 1000000 = 1000000 / 3 by norm_num]
  rw [show round ((1000000 : ℚ) / 3) = 333333 by rw [round_eq]; norm_num [Int.floor_eq_iff]]
  norm_num

theorem candDistSq_sample1 : candDistSq [0] sampleRec1 = some (1 / 4) := by
  have hdec := stringToDescriptor_descriptorToString [1 / 2]
  simp only [List.map_cons, List.map_nil] at hdec
  rw [quantize_half] at hdec
  unfold candDistSq sampleRec1
  simp only [hdec]
  unfold calculateDistanceSq
  norm_num [distSq]

theorem candDistSq_sample2 : candDistSq [0] sampleRec2 = some (1 / 4) := by
  have hdec := stringToDescriptor_descriptorToString [-1 / 2]
  simp only [List.map_cons, List.map_nil] at hdec
  rw [quantize_neg_half] at hdec
  unfold candDistSq sampleRec2
  simp only [hdec]
  unfold calculateDistanceSq
  norm_num [distSq]

theorem candDistSq_sampleBad : candDistSq [0] sampleRecBad = none := by decide

theorem candDistSq_sampleDim : candDistSq [0] sampleRecDim = none := by
  have hdec := stringToDescriptor_descriptorToString [1 / 2, 1 / 2]
  unfold candDistSq sampleRecDim
  simp only [hdec]
  unfold calculateDistanceSq
  simp

theorem minDistSq_sample1 : minDistSq [0] [sampleRec1] = some (1 / 4) := by
  unfold minDistSq candDists
  simp [List.filterMap, candDistSq_sample1]

theorem minDistSq_sample12 : minDistSq [0] [sampleRec1, sampleRec2] = some (1 / 4) := by
  unfold minDistSq candDists
  simp [List.filterMap, candDistSq_sample1, candDistSq_sample2]

/-! ## Claim theorems -/

/-- C1: for a fixed underlying set of attendance records of one
identity, with statuses drawn from the data model's four values in any
letter case and the live events drawn from the same set, merging the
historical fetch result and then the live events into calendar state
yields the same final presentDays, lateDays and absentDays as merging
the live events first and then the historical fetch result; in
particular a historical fetch applied after live events never removes a
calendar date already contributed by a live event. -/
theorem c1_merge_order_commutes (R L : List AttRecord) (faceId : String) (today y m : ℕ)
    (hcan : ∀ r ∈ R, canonicalStatus r.status) (hsub : ∀ r ∈ L, r ∈ R) :
    liveStep L faceId today (histStep R faceId today (initState y m))
      = histStep R faceId today (liveStep L faceId today (initState y m)) ∧
    ∀ d, isDateInArray d (liveStep L faceId today (initState y m)).present = true →
      isDateInArray d
        (histStep R faceId today (liveStep L faceId today (initState y m))).present = true :=
  ⟨hist_live_commute_core R L faceId today y m hcan hsub,
   live_dates_survive R L faceId today y m hcan hsub⟩

/-- Witness for C1 at a concrete record set: two records (Present and
late) of one face in March 2025, delivered both as the fetch result and
as live events. -/
theorem c1_witness :
    (∀ r ∈ c1R, canonicalStatus r.status) ∧ (∀ r ∈ c1R, r ∈ c1R) ∧
    liveStep c1R "f1" 1743379200000 (histStep c1R "f1" 1743379200000 (initState 2025 2))
      = histStep c1R "f1" 1743379200000 (liveStep c1R "f1" 1743379200000 (initState 2025 2)) ∧
    isDateInArray 1740960000000
      (histStep c1R "f1" 1743379200000
        (liveStep c1R "f1" 1743379200000 (initState 2025 2))).present = true :=
  ⟨by decide, by decide,
   (c1_merge_order_commutes c1R c1R "f1" 1743379200000 2025 2 (by decide) (by decide)).1,
   (c1_merge_order_commutes c1R c1R "f1" 1743379200000 2025 2 (by decide) (by decide)).2
     1740960000000 (by decide)⟩

/-- C3 counterexample: in the reachable state produced by a historical
fetch of a Present record and a late record of the same calendar day,
that day lies in both presentDays and lateDays, so the three sets are
not pairwise disjoint; and the initial reachable state of March 2025
has a past working day in none of presentDays, lateDays, absentDays,
so totality of classification also fails as stated. -/
theorem c3_counterexample :
    (reachCal 1743379200000 (histStep c1R "f1" 1743379200000 (initState 2025 2)) ∧
      isDateInArray 1740960000000
        (histStep c1R "f1" 1743379200000 (initState 2025 2)).present = true ∧
      isDateInArray 1740960000000
        (histStep c1R "f1" 1743379200000 (initState 2025 2)).late = true) ∧
    (reachCal 1743379200000 (initState 2025 2) ∧
      1740960000000 ∈ (initState 2025 2).working ∧
      1740960000000 ≤ 1743379200000 ∧
      isDateInArray 1740960000000 (initState 2025 2).present = false ∧
      isDateInArray 1740960000000 (initState 2025 2).late = false ∧
      1740960000000 ∉ (initState 2025 2).absent) :=
  ⟨⟨reachCal.hist (okQueryById c1R "f1") (okQueryByUserId c1R "f1") (initState 2025 2)
      (reachCal.init 2025 2), by decide, by decide⟩,
   ⟨reachCal.init 2025 2, by decide, by decide, by decide, by decide, by decide⟩⟩

/-- C3 amended: in every reachable CalendarState, absentDays contains
only working days not after today and is disjoint by calendar date from
presentDays and from lateDays; and whenever workingDays is nonempty and
presentDays or lateDays is nonempty (the recompute guard of the
source), every working day not after today belongs to presentDays,
lateDays or absentDays. Totality does not hold when both attendance
arrays are empty, and presentDays and lateDays themselves may
overlap. -/
theorem c3_amended_invariant (today : ℕ) (s : CalState) (h : reachCal today s) :
    calInvariant today s :=
  reachCal_invariant h

/-- Witness for C3 at a concrete reachable state. -/
theorem c3_witness :
    reachCal 1743379200000 (histStep c1R "f1" 1743379200000 (initState 2025 2)) ∧
    calInvariant 1743379200000 (histStep c1R "f1" 1743379200000 (initState 2025 2)) := by
  have hreach : reachCal 1743379200000 (histStep c1R "f1" 1743379200000 (initState 2025 2)) :=
    reachCal.hist (okQueryById c1R "f1") (okQueryByUserId c1R "f1") (initState 2025 2)
      (reachCal.init 2025 2)
  exact ⟨hreach, c3_amended_invariant 1743379200000 _ hreach⟩

/-- C4 counterexample: an attendance record with status Unauthorized
and no identity is counted toward the presentDays of the identity whose
selected face id equals the record's own record id, through the
fetch-by-id half of the historical query. -/
theorem c4_counterexample :
    c4Rec.user_id = none ∧ toLowerStr c4Rec.status = "unauthorized" ∧
    isDateInArray c4Rec.ts
      (histStep [c4Rec] "f1" 1743379200000 (initState 2025 2)).present = true := by
  decide

/-- C4 amended: an attendance record with unauthorized status in any
letter case and no identityId is never counted toward an identity whose
selected face id differs from the record's own record id: the record
matches neither historical query, and the live classification marks it
neither present nor late. -/
theorem c4_amended_no_cross_attribution (R : List AttRecord) (faceId : String) (r : AttRecord)
    (hst : toLowerStr r.status = "unauthorized") (hid : r.user_id = none)
    (hrid : faceId ≠ r.rid) :
    r ∉ matchedRecords R faceId ∧ livePresentCheck r.status = false ∧
      liveLateCheck r.status = false := by
  refine ⟨?notMatched, ?notPresent, ?notLate⟩
  · intro hmem
    rcases List.mem_append.mp hmem with hmem1 | hmem1
    · have hpred := (List.mem_filter.mp hmem1).2
      exact hrid (eq_of_beq hpred).symm
    · have hpred := (List.mem_filter.mp hmem1).2
      rw [hid] at hpred
      simp at hpred
  · have hb : (r.status == "Present") = false := by
      refine Bool.eq_false_iff.mpr ?notPres
      intro hb1
      rw [eq_of_beq hb1] at hst
      exact absurd hst (by decide)
    unfold livePresentCheck
    rw [hb, hst]
    decide
  · have hb : (r.status == "Late") = false := by
      refine Bool.eq_false_iff.mpr ?notLateB
      intro hb1
      rw [eq_of_beq hb1] at hst
      exact absurd hst (by decide)
    unfold liveLateCheck
    rw [hb, hst]
    decide

/-- Witness for C4 at a concrete record and a distinct identity. -/
theorem c4_witness :
    toLowerStr c4Rec.status = "unauthorized" ∧ c4Rec.user_id = none ∧ "f2" ≠ c4Rec.rid ∧
    c4Rec ∉ matchedRecords [c4Rec] "f2" ∧ livePresentCheck c4Rec.status = false :=
  ⟨by decide, rfl, by decide,
   (c4_amended_no_cross_attribution [c4Rec] "f2" c4Rec (by decide) rfl (by decide)).1,
   (c4_amended_no_cross_attribution [c4Rec] "f2" c4Rec (by decide) rfl (by decide)).2.1⟩

/-- C5: evaluation of the historical fetch at a pair of failed queries
(null data, an error the source never reads): the prior presentDays and
lateDays are cleared as if the result were empty, and no failure is
signalled, contradicting the stated failure semantics. -/
theorem c5_failed_fetch_clears :
    histApply ⟨none, some "query failed"⟩ ⟨none, some "query failed"⟩
        ⟨[1740963600000], [1740967200000], [1741000000000], [1740960000000]⟩
      = ⟨[], [], [1741000000000], [1740960000000]⟩ := by
  decide

/-- C2: for every probe and candidate set, if the minimum Euclidean
distance over the comparable candidates is strictly below 0.6 then the
match recognizes the winning identity (the first candidate attaining
the minimum) with confidence one minus that minimum distance; if no
comparable candidate is strictly below 0.6, or no candidate is
comparable at all, the match answers recognized false with no
identity. -/
theorem c2_threshold_gates_match (probe : List ℚ) (records : List AttRecord) :
    (∀ m, minDistSq probe records = some m →
      ((∃ r ∈ records, candDistSq probe r = some m) ∧
        (∀ r ∈ records, ∀ q, candDistSq probe r = some q → m ≤ q)) ∧
      (Real.sqrt (m : ℝ) < 0.6 →
        (matchCandidates probe records).recognized = true ∧
        (∃ r, records.find? (fun x => candDistSq probe x == some m) = some r ∧
          (matchCandidates probe records).employee = some (employeeOfRec r)) ∧
        (matchCandidates probe records).confidence = some (1 - Real.sqrt (m : ℝ))) ∧
      (0.6 ≤ Real.sqrt (m : ℝ) → matchCandidates probe records = noMatchResult)) ∧
    (minDistSq probe records = none → matchCandidates probe records = noMatchResult) := by
  constructor
  · intro m hm
    refine ⟨minDistSq_spec hm, ?below, ?above⟩
    · intro hlt
      have hltq : m < thresholdSq := (sqrt_lt_threshold_iff m).mp hlt
      obtain ⟨r, hfind, heq⟩ := matchCandidates_of_lt hm hltq
      refine ⟨by rw [heq], ⟨r, hfind, by rw [heq]⟩, ?conf⟩
      rw [heq]
      rfl
    · intro hge
      have hgeq : thresholdSq ≤ m := by
        by_contra hcon
        push_neg at hcon
        exact absurd ((sqrt_lt_threshold_iff m).mpr hcon) (not_lt.mpr hge)
      exact matchCandidates_of_ge hm hgeq
  · exact matchCandidates_of_none

/-- Witness for C2 at a concrete probe and one enrolled record at
squared distance 1/4 (distance 1/2, confidence 1/2). -/
theorem c2_witness :
    minDistSq [0] [sampleRec1] = some (1 / 4) ∧
    Real.sqrt ((1 / 4 : ℚ) : ℝ) < 0.6 ∧
    (matchCandidates [0] [sampleRec1]).recognized = true ∧
    (matchCandidates [0] [sampleRec1]).confidence = some ((1 : ℝ) / 2) := by
  have hlt : Real.sqrt ((1 / 4 : ℚ) : ℝ) < 0.6 :=
    (sqrt_lt_threshold_iff (1 / 4)).mpr (by norm_num [thresholdSq])
  have hparts := ((c2_threshold_gates_match [0] [sampleRec1]).1 (1 / 4) minDistSq_sample1).2.1 hlt
  refine ⟨minDistSq_sample1, hlt, hparts.1, ?conf⟩
  rw [hparts.2.2]
  have hsq : Real.sqrt ((1 / 4 : ℚ) : ℝ) = 1 / 2 := by
    rw [show (((1 / 4 : ℚ)) : ℝ) = (1 / 2 : ℝ) ^ 2 by norm_num]
    rw [Real.sqrt_sq (by norm_num : (0 : ℝ) ≤ 1 / 2)]
  rw [hsq]
  norm_num

/-- C6 counterexample: the storeUnrecognizedFace write path persists an
unauthorized recognition attempt under the literal status unauthorized,
not under the status value of present events, so the stated
normalization does not hold on every write path. -/
theorem c6_counterexample :
    (storeUnrecognizedFacePayload "url" "agent" 0).status = "unauthorized" ∧
    (recordAttendancePayload "u1" "present" none none none 0).status = "present" ∧
    (storeUnrecognizedFacePayload "url" "agent" 0).status
      ≠ (recordAttendancePayload "u1" "present" none none none 0).status := by
  refine ⟨rfl, rfl, ?ne⟩
  decide

/-- C6 amended: the recordAttendance write path stores an unauthorized
attempt under the same status value as present events (both persist the
status present), while the storeUnrecognizedFace write path stores the
literal status unauthorized with a null identityId; the normalization
holds on the recordAttendance path only. -/
theorem c6_amended_write_paths :
    (∀ userId conf dev name ts,
      (recordAttendancePayload userId "unauthorized" conf dev name ts).status = "present" ∧
      (recordAttendancePayload userId "present" conf dev name ts).status = "present") ∧
    (∀ url ua ts, (storeUnrecognizedFacePayload url ua ts).status = "unauthorized" ∧
      (storeUnrecognizedFacePayload url ua ts).user_id = none) := by
  constructor
  · intro userId conf dev name ts
    exact ⟨rfl, rfl⟩
  · intro url ua ts
    exact ⟨rfl, rfl⟩

/-- C7: the match never raises for a no-match outcome: with a
successful query the result is always an ok value, an empty candidate
list answers recognized false with no error, and when every candidate
is skipped (missing metadata, undecodable stored descriptor, or
mismatched dimensions) the result is likewise the plain no-match value,
so an error local to one candidate never aborts the pass. -/
theorem c7_no_match_no_error (probe : List ℚ) (records : List AttRecord) :
    (recognizeFace probe ⟨some records, none⟩).isOk = true ∧
    (records = [] → recognizeFace probe ⟨some records, none⟩ = Except.ok noMatchResult) ∧
    ((∀ r ∈ records, candDistSq probe r = none) →
      recognizeFace probe ⟨some records, none⟩ = Except.ok noMatchResult) := by
  refine ⟨rfl, ?empty, ?skipped⟩
  · intro h
    subst h
    rfl
  · intro h
    have hcd : candDists probe records = [] := by
      unfold candDists
      exact List.filterMap_eq_nil.mpr h
    have hmin : minDistSq probe records = none := by
      unfold minDistSq
      rw [hcd]
    show Except.ok (matchCandidates probe records) = Except.ok noMatchResult
    rw [matchCandidates_of_none hmin]

theorem candDistSq_c7_all_skipped :
    ∀ r ∈ [sampleRecBad, sampleRecDim], candDistSq [0] r = none := by
  intro r hr
  rcases List.mem_cons.mp hr with h | h
  · rw [h]; exact candDistSq_sampleBad
  · have h2 : r = sampleRecDim := by simpa using h
    rw [h2]; exact candDistSq_sampleDim

/-- Witness for C7: the empty candidate list, and a list whose two
candidates are skipped for an undecodable descriptor and for mismatched
dimensions. -/
theorem c7_witness :
    recognizeFace [0] ⟨some [], none⟩ = Except.ok noMatchResult ∧
    (∀ r ∈ [sampleRecBad, sampleRecDim], candDistSq [0] r = none) ∧
    recognizeFace [0] ⟨some [sampleRecBad, sampleRecDim], none⟩ = Except.ok noMatchResult :=
  ⟨(c7_no_match_no_error [0] []).2.1 rfl,
   candDistSq_c7_all_skipped,
   (c7_no_match_no_error [0] [sampleRecBad, sampleRecDim]).2.2 candDistSq_c7_all_skipped⟩

/-- C8: when two candidates at distinct positions attain the same
minimum distance below the threshold, the match returns the candidate
at the earliest position attaining that minimum; a later candidate at
equal distance never replaces it. -/
theorem c8_tie_break_first_wins (probe : List ℚ) (records : List AttRecord) (m : ℚ)
    (i j : ℕ) (hij : i < j) (hjlen : j < records.length)
    (hi : candDistSq probe (records.get ⟨i, lt_trans hij hjlen⟩) = some m)
    (hj : candDistSq probe (records.get ⟨j, hjlen⟩) = some m)
    (hmin : minDistSq probe records = some m) (hlt : m < thresholdSq) :
    ∃ k, ∃ hk : k < records.length, k ≤ i ∧
      candDistSq probe (records.get ⟨k, hk⟩) = some m ∧
      (matchCandidates probe records).employee = some (employeeOfRec (records.get ⟨k, hk⟩)) ∧
      ∀ j2, ∀ hj2 : j2 < records.length, j2 < k →
        candDistSq probe (records.get ⟨j2, hj2⟩) ≠ some m := by
  obtain ⟨r, hfind, heq⟩ := matchCandidates_of_lt hmin hlt
  obtain ⟨k, hk, hget, hearly⟩ := find?_first_index _ records r hfind
  have hpk : candDistSq probe (records.get ⟨k, hk⟩) = some m := by
    have hp := List.find?_some hfind
    rw [hget]
    exact eq_of_beq hp
  have hki : k ≤ i := by
    by_contra hcon
    push_neg at hcon
    have := hearly i (lt_trans hij hjlen) hcon
    rw [hi] at this
    simp at this
  refine ⟨k, hk, hki, hpk, ?emp, ?early⟩
  · rw [heq, hget]
  · intro j2 hj2 hj2k hcon
    have := hearly j2 hj2 hj2k
    rw [hcon] at this
    simp at this

/-- Witness for C8: two records at equal squared distance 1/4 from the
probe; the first one wins. -/
theorem c8_witness :
    candDistSq [0] (([sampleRec1, sampleRec2] : List AttRecord).get ⟨0, by norm_num⟩)
      = some (1 / 4) ∧
    candDistSq [0] (([sampleRec1, sampleRec2] : List AttRecord).get ⟨1, by norm_num⟩)
      = some (1 / 4) ∧
    minDistSq [0] [sampleRec1, sampleRec2] = some (1 / 4) ∧
    (matchCandidates [0] [sampleRec1, sampleRec2]).employee
      = some (employeeOfRec sampleRec1) := by
  refine ⟨candDistSq_sample1, candDistSq_sample2, minDistSq_sample12, ?emp⟩
  obtain ⟨k, hk, hki, hpk, hemp, hearly⟩ :=
    c8_tie_break_first_wins [0] [sampleRec1, sampleRec2] (1 / 4) 0 1 (by norm_num)
      (by norm_num) candDistSq_sample1 candDistSq_sample2 minDistSq_sample12
      (by norm_num [thresholdSq])
  have hk0 : k = 0 := Nat.le_zero.mp hki
  subst hk0
  exact hemp

/-- C9 (spec-modelled codec): decoding the encoding of any
finite-length descriptor succeeds and returns the componentwise
quantization of the descriptor at the fixed six-decimal-digit
precision; each component is reproduced within half an ulp of that
precision, 1/2000000. -/
theorem c9_codec_round_trip (d : List ℚ) :
    stringToDescriptor (descriptorToString d) = some (d.map quantize) ∧
    ∀ a ∈ d, |quantize a - a| ≤ 1 / 2000000 :=
  ⟨stringToDescriptor_descriptorToString d, fun a _ => quantize_tolerance a⟩

/-- Witness for C9 at the one-component descriptor 1/3, whose
quantization is 333333/1000000, at distance 1/3000000 from 1/3. -/
theorem c9_witness :
    stringToDescriptor (descriptorToString [1 / 3]) = some [333333 / 1000000] ∧
    |(333333 / 1000000 : ℚ) - 1 / 3| ≤ 1 / 2000000 := by
  have h1 := (c9_codec_round_trip [1 / 3]).1
  have h2 := (c9_codec_round_trip [1 / 3]).2 (1 / 3) (by simp)
  simp only [List.map_cons, List.map_nil, quantize_third] at h1
  rw [quantize_third] at h2
  exact ⟨h1, h2⟩

/-- C10 counterexample: the stated premise is unsatisfiable, because a
record without a metadata object stores no descriptor and therefore
never contributes a distance; the guard of lines 97-100 that would
answer recognized false despite a sub-threshold match is unreachable. -/
theorem c10_counterexample : matchC10Premise = False := by
  refine eq_false ?notPremise
  rintro ⟨probe, records, r, m, _, hcand, _, _, hmd, _⟩
  obtain ⟨md, hmd2⟩ := candDistSq_metadata hcand
  rw [hmd] at hmd2
  exact absurd hmd2 (by simp)

/-- C10 amended: every candidate that contributes a distance has a
metadata object, and whenever the minimum distance over comparable
candidates is below the threshold the match answers recognized true;
the missing-metadata no-match branch after the loop can never fire. -/
theorem c10_amended_metadata_unreachable (probe : List ℚ) (records : List AttRecord) :
    (∀ r ∈ records, ∀ m, candDistSq probe r = some m →
      (r.device_info.bind DeviceInfo.metadata).isSome = true) ∧
    (∀ m, minDistSq probe records = some m → m < thresholdSq →
      (matchCandidates probe records).recognized = true) := by
  constructor
  · intro r _ m hm
    obtain ⟨md, hmd⟩ := candDistSq_metadata hm
    rw [hmd]
    rfl
  · intro m hm hlt
    obtain ⟨r, _, heq⟩ := matchCandidates_of_lt hm hlt
    rw [heq]

/-- Witness for C10 amended at the concrete one-record candidate set. -/
theorem c10_witness :
    (sampleRec1.device_info.bind DeviceInfo.metadata).isSome = true ∧
    (matchCandidates [0] [sampleRec1]).recognized = true :=
  ⟨(c10_amended_metadata_unreachable [0] [sampleRec1]).1 sampleRec1
      (List.mem_cons_self sampleRec1 []) (1 / 4) candDistSq_sample1,
   (c10_amended_metadata_unreachable [0] [sampleRec1]).2 (1 / 4) minDistSq_sample1
      (by norm_num [thresholdSq])⟩
